import Mathlib

/-!
Verification of the `say` structured-logging library (go-say/say).

Strings are modelled as lists of byte values (`List Nat`, each element a byte
0..255), matching Go's byte-oriented `string` type.  Relevant ASCII codes used
throughout: 9 = tab, 10 = newline, 32 = space, 34 = double quote, 58 = colon,
61 = equals, 92 = backslash, 124 = vertical bar.

Each definition is a faithful translation of the corresponding Go function and
carries its source name where Lean allows it.
-/

namespace Say

/-! ### Write-side line escaper (`writeEscapeByte` / `writeEscapeString`) -/

/-- Blank continuation prefix.  Modelled from the spec: `prefixBlank` is not in
the provided sources; per the spec the continuation prefix is a blank run of
the width of the tag column (5-byte tag plus a space), so 6 spaces.  The read
side's `blankPrefix = " \n      "` confirms this. -/
def prefixBlankBytes : List Nat := [32, 32, 32, 32, 32, 32]

/-- Faithful model of `writeEscapeByte` (the write-side escaper): a newline is
replaced by `" \n"` followed by the 6-space blank prefix; a `|` whose
immediately preceding buffer byte is a tab rewrites that tab to a space before
appending the `|`; every other byte is appended verbatim. -/
def writeEscapeByte (buf : List Nat) (b : Nat) : List Nat :=
  if b = 10 then buf ++ 32 :: 10 :: prefixBlankBytes
  else if b = 124 then
    (if buf.getLast? = some 9 then buf.dropLast ++ [32] else buf) ++ [124]
  else buf ++ [b]

/-- Faithful model of `writeEscapeString`: byte-wise loop of `writeEscapeByte`
over the string, starting from the given buffer. -/
def writeEscapeString (buf : List Nat) (s : List Nat) : List Nat :=
  s.foldl writeEscapeByte buf

/-- One-byte-lookahead reformulation of the escaper, used to reason about
`writeEscapeString`: rewriting the preceding tab when a `|` is seen is the
same as emitting a space instead of a tab when the next byte is `|`. -/
def escapeLA : List Nat → List Nat
  | [] => []
  | b :: rest =>
    if b = 10 then 32 :: 10 :: (prefixBlankBytes ++ escapeLA rest)
    else if b = 9 ∧ rest.head? = some 124 then 32 :: escapeLA rest
    else b :: escapeLA rest

theorem writeEscapeString_eq_escapeLA (s : List Nat) (buf : List Nat) :
    writeEscapeString buf s =
      (if buf.getLast? = some 9 ∧ s.head? = some 124 then buf.dropLast ++ [32] else buf)
        ++ escapeLA s := by
  induction s generalizing buf with
  | nil => simp [writeEscapeString, escapeLA]
  | cons b rest ih =>
    have hstep : writeEscapeString buf (b :: rest) =
        writeEscapeString (writeEscapeByte buf b) rest := rfl
    rw [hstep, ih]
    by_cases hb10 : b = 10
    · subst hb10
      simp [writeEscapeByte, escapeLA, prefixBlankBytes]
    · by_cases hb124 : b = 124
      · subst hb124
        simp only [writeEscapeByte, if_neg (by omega : ¬(124 : Nat) = 10), if_pos rfl]
        rw [escapeLA]
        simp [List.getLast?_concat]
      · by_cases hb9 : b = 9
        · subst hb9
          simp only [writeEscapeByte, if_neg (by omega : ¬(9 : Nat) = 10),
            if_neg (by omega : ¬(9 : Nat) = 124)]
          rw [escapeLA]
          by_cases hr : rest.head? = some 124
          · simp [List.getLast?_concat, List.dropLast_concat, hr]
          · simp [List.getLast?_concat, List.dropLast_concat, hr]
        · have hbeq : writeEscapeByte buf b = buf ++ [b] := by
            simp [writeEscapeByte, hb10, hb124]
          rw [hbeq, escapeLA]
          simp [List.getLast?_concat, hb10, hb124, hb9]

/-- Escaping a content string into an empty buffer is the lookahead escaper. -/
theorem writeEscapeString_nil_eq (s : List Nat) :
    writeEscapeString [] s = escapeLA s := by
  rw [writeEscapeString_eq_escapeLA]
  simp

/-- Whether a byte string contains a tab immediately followed by a `|`
(the data-field separator pattern `"\t|"`). -/
def hasTabPipe : List Nat → Bool
  | [] => false
  | b :: rest => (b == 9 && rest.head? == some 124) || hasTabPipe rest

theorem escapeLA_head_ne_ten (s : List Nat) : (escapeLA s).head? ≠ some 10 := by
  cases s with
  | nil => simp [escapeLA]
  | cons b rest =>
    rw [escapeLA]
    by_cases hb10 : b = 10
    · simp [hb10]
    · by_cases hb9 : b = 9 ∧ rest.head? = some 124
      · simp [hb10, hb9]
      · simp [hb10, hb9]

theorem escapeLA_head_pipe (s : List Nat) (h : (escapeLA s).head? = some 124) :
    s.head? = some 124 := by
  cases s with
  | nil => simp [escapeLA] at h
  | cons b rest =>
    rw [escapeLA] at h
    by_cases hb10 : b = 10
    · simp [hb10] at h
    · by_cases hb9 : b = 9 ∧ rest.head? = some 124
      · simp [hb10, hb9] at h
      · simp [hb10, hb9] at h
        simp [h]

theorem hasTabPipe_escapeLA (s : List Nat) : hasTabPipe (escapeLA s) = false := by
  induction s with
  | nil => simp [escapeLA, hasTabPipe]
  | cons b rest ih =>
    rw [escapeLA]
    by_cases hb10 : b = 10
    · simp only [hb10, if_pos rfl, prefixBlankBytes]
      simp [hasTabPipe, ih]
    · by_cases hb9 : b = 9 ∧ rest.head? = some 124
      · simp only [if_neg hb10, if_pos hb9]
        simp [hasTabPipe, ih]
      · simp only [if_neg hb10, if_neg hb9]
        rw [hasTabPipe]
        simp only [ih, Bool.or_false]
        by_cases hb9' : b = 9
        · have hr : ¬rest.head? = some 124 := by
            intro hc
            exact hb9 ⟨hb9', hc⟩
          have hr2 : ¬(escapeLA rest).head? = some 124 := by
            intro hc
            exact hr (escapeLA_head_pipe rest hc)
          simp [hr2]
        · simp [hb9']

/-- C5: the write-side escaper turns a tab that immediately precedes a literal
`|` into a space, and consequently the escaped output never contains the raw
`"\t|"` separator pattern. -/
theorem tab_before_pipe_is_rewritten :
    (∀ u v : List Nat, writeEscapeString [] (u ++ 9 :: 124 :: v) =
        writeEscapeString [] (u ++ 32 :: 124 :: v))
    ∧ ∀ s : List Nat, hasTabPipe (writeEscapeString [] s) = false := by
  constructor
  · have key : ∀ u v : List Nat,
        escapeLA (u ++ 9 :: 124 :: v) = escapeLA (u ++ 32 :: 124 :: v) := by
      intro u v
      induction u with
      | nil =>
        simp only [List.nil_append]
        rw [escapeLA, escapeLA]
        norm_num
        rw [escapeLA, escapeLA]
        norm_num
      | cons c u ih =>
        simp only [List.cons_append]
        rw [escapeLA, escapeLA]
        by_cases hc10 : c = 10
        · simp [hc10, ih]
        · cases u with
          | nil =>
            simp only [List.nil_append]
            by_cases hc9 : c = 9
            · simp only [if_neg hc10]
              norm_num [hc9]
              rw [escapeLA, escapeLA]
              norm_num
              rw [escapeLA, escapeLA]
              norm_num
            · simp only [if_neg hc10]
              norm_num [hc9]
              rw [escapeLA, escapeLA]
              norm_num
              rw [escapeLA, escapeLA]
              norm_num
          | cons d u' =>
            simp only [List.cons_append] at ih ⊢
            rw [ih]
            simp only [List.head?_cons]
    intro u v
    rw [writeEscapeString_nil_eq, writeEscapeString_nil_eq]
    exact key u v
  · intro s
    rw [writeEscapeString_nil_eq]
    exact hasTabPipe_escapeLA s

/-! ### Read-side continuation unescape (`parseContent`) -/

/-- Read-side continuation marker, Go's `blankPrefix = " \n      "`. -/
def blankMark : List Nat := 32 :: 10 :: prefixBlankBytes

/-- Faithful model of `parseContent`:
`bytes.Replace(raw, blankPrefix, []byte{'\n'}, -1)` — every leftmost,
non-overlapping occurrence of `" \n      "` is replaced by a newline. -/
def parseContent : List Nat → List Nat
  | [] => []
  | b :: rest =>
    if blankMark.isPrefixOf (b :: rest) then 10 :: parseContent ((b :: rest).drop 8)
    else b :: parseContent rest
termination_by s => s.length
decreasing_by
  · simp only [List.length_drop, List.length_cons]
    omega
  · simp only [List.length_cons]
    omega

theorem parseContent_blankMark (e : List Nat) :
    parseContent (blankMark ++ e) = 10 :: parseContent e := by
  have hshape : blankMark ++ e = 32 :: (10 :: 32 :: 32 :: 32 :: 32 :: 32 :: 32 :: e) := by
    simp [blankMark, prefixBlankBytes]
  rw [hshape, parseContent]
  have hpre : blankMark.isPrefixOf (32 :: 10 :: 32 :: 32 :: 32 :: 32 :: 32 :: 32 :: e) = true := by
    simp [blankMark, prefixBlankBytes, List.isPrefixOf]
  simp [hpre]

theorem parseContent_cons_of_head_ne (b : Nat) (e : List Nat) (h : e.head? ≠ some 10) :
    parseContent (b :: e) = b :: parseContent e := by
  rw [parseContent]
  have hpre : ¬blankMark.isPrefixOf (b :: e) = true := by
    cases e with
    | nil => simp [blankMark, prefixBlankBytes, List.isPrefixOf]
    | cons c e' =>
      have hc : ¬c = 10 := by
        intro hc
        exact h (by simp [hc])
      simp [blankMark, prefixBlankBytes, List.isPrefixOf]
      intro _ hcc
      exact absurd hcc.symm hc
  simp [hpre]

theorem parseContent_escapeLA (s : List Nat) (h : hasTabPipe s = false) :
    parseContent (escapeLA s) = s := by
  induction s with
  | nil => simp [escapeLA, parseContent]
  | cons b rest ih =>
    have hrest : hasTabPipe rest = false := by
      rw [hasTabPipe] at h
      exact (Bool.or_eq_false_iff.mp h).2
    rw [escapeLA]
    by_cases hb10 : b = 10
    · subst hb10
      rw [if_pos rfl]
      have hshape : 32 :: 10 :: (prefixBlankBytes ++ escapeLA rest) =
          blankMark ++ escapeLA rest := by
        simp [blankMark]
      rw [hshape, parseContent_blankMark, ih hrest]
    · by_cases hb9 : b = 9 ∧ rest.head? = some 124
      · exfalso
        rw [hasTabPipe] at h
        simp [hb9.1, hb9.2] at h
      · rw [if_neg hb10, if_neg hb9,
          parseContent_cons_of_head_ne b _ (escapeLA_head_ne_ten rest), ih hrest]

/-- C2 (amended): escaping a content string with the write-side line escaper
and undoing it with the read-side continuation unescape restores the content
exactly, provided the content has no tab immediately followed by `|`; for such
content the tab is (intentionally) rewritten to a space, a second lossy case
beyond the trailing-whitespace trim that the claim mentions. -/
theorem content_roundtrip (s : List Nat) (h : hasTabPipe s = false) :
    parseContent (writeEscapeString [] s) = s := by
  rw [writeEscapeString_nil_eq]
  exact parseContent_escapeLA s h

/-- Witness for `content_roundtrip`: the content `"foo\nbar"` round-trips. -/
theorem content_roundtrip_witness :
    hasTabPipe [102, 111, 111, 10, 98, 97, 114] = false ∧
      parseContent (writeEscapeString [] [102, 111, 111, 10, 98, 97, 114]) =
        [102, 111, 111, 10, 98, 97, 114] :=
  ⟨by decide, content_roundtrip [102, 111, 111, 10, 98, 97, 114] (by decide)⟩

/-- C2 (counterexample): the content `"\t|"` does not round-trip — it comes
back as `" |"` — even though it has no trailing whitespace, so trailing
whitespace trimming is not the sole lossy exception. -/
theorem content_roundtrip_fails_on_tab_pipe :
    parseContent (writeEscapeString [] [9, 124]) = [32, 124] ∧
      ¬([32, 124] : List Nat) = [9, 124] := by
  have h1 : writeEscapeString [] [9, 124] = [32, 124] := by decide
  constructor
  · rw [h1]
    simp [parseContent, blankMark, prefixBlankBytes, List.isPrefixOf]
  · decide

/-! ### Message types and the write-side data layer (say.go / data.go) -/

/-- Message types of the `say` package (`TypeEvent` … `TypeFatal`). -/
inductive MsgType where
  | event
  | value
  | gauge
  | debug
  | info
  | warning
  | error
  | fatal
  deriving DecidableEq, Repr

/-- Wire bytes of each `Type` constant: `"EVENT"`, `"VALUE"`, `"GAUGE"`,
`"DEBUG"`, `"INFO "`, `"WARN "`, `"ERROR"`, `"FATAL"` (all 5 bytes wide). -/
def typeBytes : MsgType → List Nat
  | .event => [69, 86, 69, 78, 84]
  | .value => [86, 65, 76, 85, 69]
  | .gauge => [71, 65, 85, 71, 69]
  | .debug => [68, 69, 66, 85, 71]
  | .info => [73, 78, 70, 79, 32]
  | .warning => [87, 65, 82, 78, 32]
  | .error => [69, 82, 82, 79, 82]
  | .fatal => [70, 65, 84, 65, 76]

/-- Universe of Go values passed as message data, covering the claim-relevant
cases of the encoder's type switch.  A `Hook` is represented by the value it
yields when evaluated at encode time: `hookNil` models a Hook returning nil
(e.g. `DebugHook` with debug mode off) and `hookVal v` a Hook returning `v`.
`errVal` stands for an `error` or `fmt.Stringer` value: textual, but not a Go
`string`, hence invalid in key position. -/
inductive GoVal where
  | str : List Nat → GoVal
  | errVal : List Nat → GoVal
  | intVal : Int → GoVal
  | boolVal : Bool → GoVal
  | hookNil : GoVal
  | hookVal : GoVal → GoVal
  deriving DecidableEq, Repr

/-- An ordered key-value data list (`Data` = `[]KVPair`). -/
abbrev DataList := List (List Nat × GoVal)

/-- The two key-validation error conditions of `isKeyValid`. -/
inductive KeyErr where
  | keyEmpty
  | keyInvalid
  deriving DecidableEq, Repr

/-- Loop body of `isKeyValid`: scan the key for a reserved byte
(`:`, `=`, tab, newline). -/
def keyScan : List Nat → Option KeyErr
  | [] => none
  | b :: rest =>
    if b = 58 ∨ b = 61 ∨ b = 9 ∨ b = 10 then some .keyInvalid else keyScan rest

/-- Faithful model of `isKeyValid` (say.go): an empty key yields the
`errKeyEmpty` condition; a key containing `:`, `=`, a tab or a newline yields
the `errKeyInvalid` condition; otherwise the key is valid (`none`). -/
def isKeyValid (key : List Nat) : Option KeyErr :=
  if key = [] then some .keyEmpty else keyScan key

/-- The write-side data validation errors of say.go (`errOddNumArgs`,
`errKeyNotString`, `errKeyEmpty` / `errKeyInvalid`). -/
inductive SayErr where
  | oddNumArgs
  | keyNotString
  | keyErr : KeyErr → SayErr
  deriving DecidableEq, Repr

/-- ASCII text of each say.go error value (`errors.New` message). -/
def errText : SayErr → List Nat
  | .oddNumArgs =>
      [115, 97, 121, 58, 32, 111, 100, 100, 32, 110, 117, 109, 98, 101, 114, 32,
       111, 102, 32, 100, 97, 116, 97, 32, 97, 114, 103, 117, 109, 101, 110,
       116, 115]
  | .keyNotString =>
      [115, 97, 121, 58, 32, 107, 101, 121, 115, 32, 109, 117, 115, 116, 32, 98,
       101, 32, 115, 116, 114, 105, 110, 103]
  | .keyErr .keyEmpty =>
      [115, 97, 121, 58, 32, 107, 101, 121, 32, 105, 115, 32, 101, 109, 112,
       116, 121]
  | .keyErr .keyInvalid =>
      [115, 97, 121, 58, 32, 107, 101, 121, 115, 32, 109, 117, 115, 116, 32,
       110, 111, 116, 32, 99, 111, 110, 116, 97, 105, 110, 32, 39, 58, 39, 44,
       32, 39, 61, 39, 44, 32, 116, 97, 98, 115, 32, 111, 114, 32, 110, 101,
       119, 108, 105, 110, 101, 115]

/-- Faithful model of `filterDataValue` (data.go) on the modelled variants:
errors and Stringers are converted to their string form; strings, numbers,
booleans and Hooks pass through unchanged (a Hook is kept as a Hook and only
evaluated at encode time). -/
def filterDataValue : GoVal → GoVal
  | .str s => .str s
  | .errVal s => .str s
  | .intVal i => .intVal i
  | .boolVal b => .boolVal b
  | .hookNil => .hookNil
  | .hookVal v => .hookVal v

/-- Loop of `Data.appendData` (data.go): consume the flat argument list two at
a time, checking that each key is a string and valid; on the first failure
stop, returning the error together with the pairs appended so far (the Go code
mutates `*d` in place as it iterates).  The one-element case is unreachable in
the source because of the up-front odd-length check, and returns the same
`errOddNumArgs` for totality. -/
def appendDataLoop (d : DataList) : List GoVal → DataList × Option SayErr
  | [] => (d, none)
  | [_] => (d, some .oddNumArgs)
  | k :: v :: rest =>
    match k with
    | .str s =>
      match isKeyValid s with
      | some e => (d, some (.keyErr e))
      | none => appendDataLoop (d ++ [(s, filterDataValue v)]) rest
    | _ => (d, some .keyNotString)

/-- Faithful model of `Data.appendData` (data.go): an odd-length argument list
is rejected up front with `errOddNumArgs` and nothing is appended; otherwise
key/value pairs are validated and appended in order. -/
def appendData (d : DataList) (args : List GoVal) : DataList × Option SayErr :=
  if args.length % 2 ≠ 0 then (d, some .oddNumArgs) else appendDataLoop d args

/-- Faithful model of `Logger.SetData`: reset the persistent data, then append
the flat argument list; on failure the error is raised (`panic(err)`). -/
def setDataRun (args : List GoVal) : DataList × Option SayErr :=
  appendData [] args

/-- The write-side `Logger`: stack-skip depth and persistent ordered data. -/
structure Logger where
  skipStackFrames : Int
  data : DataList
  deriving DecidableEq, Repr

/-- The write-side `Message` record: type, content, ordered data. -/
structure Message where
  type : MsgType
  content : List Nat
  data : DataList
  deriving DecidableEq, Repr

/-- Model of `Logger.error` / `Logger.sendError` (say.go): builds the ERROR
record for a validation error ­— its content is the error text followed, when
stack traces are enabled (`skipStackFrames >= 0`), by a blank line and the
stack trace; it carries the logger's persistent data.  `st` abstracts the
runtime stack-trace text, which is not representable in a pure model. -/
def mkErrorMsg (l : Logger) (st : List Nat) (e : SayErr) : Message :=
  ⟨.error, errText e ++ (if 0 ≤ l.skipStackFrames then 10 :: 10 :: st else []), l.data⟩

/-- Faithful model of `Logger.send`: the message carries the logger's
persistent data plus the call-site pairs appended by `appendData`; when the
call-site pairs fail validation, `l.error` emits an ERROR record first and the
original message is still sent, with the pairs appended before the failure.
The result is the sequence of records emitted, in order. -/
def send (l : Logger) (st : List Nat) (typ : MsgType) (content : List Nat)
    (args : List GoVal) : List Message :=
  let res := if args.length = 0 then (l.data, none) else appendData l.data args
  match res.2 with
  | none => [⟨typ, content, res.1⟩]
  | some e => [mkErrorMsg l st e, ⟨typ, content, res.1⟩]

/-- Faithful model of `Logger.Event` (say.go): an invalid event name produces
only an ERROR record (via `sendError`) and no EVENT record; a valid name sends
the EVENT record through `send`. -/
def eventRun (l : Logger) (st : List Nat) (name : List Nat) (args : List GoVal) :
    List Message :=
  match isKeyValid name with
  | some e => [mkErrorMsg l st (.keyErr e)]
  | none => send l st .event name args

/-- Two-at-a-time induction principle for lists, mirroring the recursion shape
of the flat key-value argument loops. -/
theorem twoStepInduction {α : Type} {P : List α → Prop} (h0 : P [])
    (h1 : ∀ a, P [a]) (h2 : ∀ a b l, P l → P (a :: b :: l)) : ∀ l, P l
  | [] => h0
  | [a] => h1 a
  | a :: b :: t => h2 a b t (twoStepInduction h0 h1 h2 t)

/-- Longest prefix of the flat argument list consisting of valid string keys
paired with their filtered values, stopping at the first failing argument. -/
def validArgPairs : List GoVal → DataList
  | (GoVal.str s) :: v :: rest =>
    if isKeyValid s = none then (s, filterDataValue v) :: validArgPairs rest else []
  | _ => []

/-- First validation error in the flat argument list (`none` if valid),
ignoring the up-front odd-length check. -/
def argsError : List GoVal → Option SayErr
  | [] => none
  | [_] => some .oddNumArgs
  | k :: _ :: rest =>
    match k with
    | .str s =>
      match isKeyValid s with
      | some e => some (.keyErr e)
      | none => argsError rest
    | _ => some .keyNotString

/-- The validation error `appendData` reports for a flat argument list. -/
def argsErrorFull (args : List GoVal) : Option SayErr :=
  if args.length % 2 = 1 then some .oddNumArgs else argsError args

/-- The pairs `appendData` actually appends: none for an odd-length list,
otherwise the longest valid prefix of the call-site pairs. -/
def appliedArgPairs (args : List GoVal) : DataList :=
  if args.length % 2 = 1 then [] else validArgPairs args

theorem appendDataLoop_spec (args : List GoVal) :
    ∀ d, appendDataLoop d args = (d ++ validArgPairs args, argsError args) := by
  induction args using twoStepInduction with
  | h0 => intro d; simp [appendDataLoop, validArgPairs, argsError]
  | h1 a => intro d; simp [appendDataLoop, validArgPairs, argsError]
  | h2 k v rest ih =>
    intro d
    match k with
    | .str s =>
      rw [appendDataLoop, validArgPairs, argsError]
      cases hk : isKeyValid s with
      | some e => simp [hk]
      | none => simp [hk, ih]
    | .errVal s => simp [appendDataLoop, validArgPairs, argsError]
    | .intVal i => simp [appendDataLoop, validArgPairs, argsError]
    | .boolVal b => simp [appendDataLoop, validArgPairs, argsError]
    | .hookNil => simp [appendDataLoop, validArgPairs, argsError]
    | .hookVal v => simp [appendDataLoop, validArgPairs, argsError]

theorem appendData_spec (d : DataList) (args : List GoVal) :
    appendData d args = (d ++ appliedArgPairs args, argsErrorFull args) := by
  rw [appendData, appliedArgPairs, argsErrorFull]
  by_cases h : args.length % 2 = 1
  · simp [h]
  · have h0 : args.length % 2 = 0 := by omega
    simp [h0, h, appendDataLoop_spec]

/-- C7: setting data with an odd number of flat key-value arguments fails with
the distinct `errOddNumArgs` condition and applies no data pairs — both for
`Logger.SetData` (which resets and then appends into an empty list) and for
message-level data appended by `send`. -/
theorem odd_args_rejected (d : DataList) (args : List GoVal)
    (h : args.length % 2 = 1) :
    appendData d args = (d, some .oddNumArgs)
    ∧ setDataRun args = ([], some .oddNumArgs) := by
  have key : ∀ d' : DataList, appendData d' args = (d', some .oddNumArgs) := by
    intro d'
    rw [appendData, if_pos (by omega)]
  exact ⟨key d, key []⟩

/-- Witness for `odd_args_rejected` at a concrete odd argument list. -/
theorem odd_args_rejected_witness :
    appendData [([97], GoVal.str [98])] [GoVal.str [99]] =
      ([([97], GoVal.str [98])], some SayErr.oddNumArgs)
    ∧ setDataRun [GoVal.str [99]] = ([], some SayErr.oddNumArgs) :=
  odd_args_rejected [([97], GoVal.str [98])] [GoVal.str [99]] (by decide)

/-- C10: a logging-verb call whose variadic key-value arguments fail
validation still emits the triggering message: a separate ERROR record comes
first, and the original message is sent carrying the logger's persistent data
plus exactly the longest valid prefix of the call-site pairs appended before
the failing argument (no call-site pairs at all for an odd count). -/
theorem invalid_args_still_sends (l : Logger) (st : List Nat) (typ : MsgType)
    (content : List Nat) (args : List GoVal) (e : SayErr)
    (h : argsErrorFull args = some e) :
    send l st typ content args =
      [mkErrorMsg l st e, ⟨typ, content, l.data ++ appliedArgPairs args⟩]
    ∧ (mkErrorMsg l st e).type = .error
    ∧ (args.length % 2 = 1 → appliedArgPairs args = []) := by
  refine ⟨?_, rfl, fun hodd => by simp [appliedArgPairs, hodd]⟩
  have hne : ¬args.length = 0 := by
    intro h0
    have : args = [] := List.length_eq_zero.mp h0
    subst this
    simp [argsErrorFull, argsError] at h
  rw [send]
  simp only [hne, if_false, appendData_spec, h]

/-- Witness for `invalid_args_still_sends`: a non-string key in second
position makes `Info`-style sending emit the ERROR record and then the
original message with only the first (valid) call-site pair. -/
theorem invalid_args_still_sends_witness :
    send ⟨-1, []⟩ [] .info [104]
        [GoVal.str [97], GoVal.intVal 1, GoVal.boolVal true, GoVal.intVal 2] =
      [mkErrorMsg ⟨-1, []⟩ [] .keyNotString,
       ⟨.info, [104], [([97], GoVal.intVal 1)]⟩] := by
  have h := (invalid_args_still_sends ⟨-1, []⟩ [] .info [104]
    [GoVal.str [97], GoVal.intVal 1, GoVal.boolVal true, GoVal.intVal 2]
    .keyNotString (by decide)).1
  rw [h]
  simp [appliedArgPairs, validArgPairs, isKeyValid, keyScan, filterDataValue]

/-- C6: key validation — an empty key is rejected with the distinct
`errKeyEmpty` condition; a key containing `:`, `=`, a tab or a newline is
rejected with the distinct `errKeyInvalid` condition; and when the rejection
happens in a logging-verb call (an invalid verb name, or an invalid
call-site data key), the error surfaces as an ERROR-type record emitted
through the normal output pipeline. -/
theorem key_validation_errors :
    isKeyValid [] = some .keyEmpty
    ∧ (∀ (k : List Nat) (b : Nat), b ∈ k → (b = 58 ∨ b = 61 ∨ b = 9 ∨ b = 10) →
        isKeyValid k = some .keyInvalid)
    ∧ (∀ (l : Logger) (st name : List Nat) (args : List GoVal) (e : KeyErr),
        isKeyValid name = some e →
          eventRun l st name args = [mkErrorMsg l st (.keyErr e)]
          ∧ (mkErrorMsg l st (.keyErr e)).type = .error)
    ∧ ∀ (l : Logger) (st : List Nat) (typ : MsgType) (content : List Nat)
        (args : List GoVal) (e : SayErr), argsErrorFull args = some e →
          (send l st typ content args).head? = some (mkErrorMsg l st e)
          ∧ (mkErrorMsg l st e).type = .error := by
  refine ⟨rfl, ?_, ?_, ?_⟩
  · intro k b hmem hres
    have hscan : ∀ k' : List Nat, b ∈ k' → keyScan k' = some .keyInvalid := by
      intro k'
      induction k' with
      | nil => intro h; simp at h
      | cons c rest ih =>
        intro h
        rw [keyScan]
        by_cases hc : c = 58 ∨ c = 61 ∨ c = 9 ∨ c = 10
        · simp [hc]
        · have hbc : ¬b = c := by
            intro hbc
            subst hbc
            exact hc hres
          have : b ∈ rest := by
            rcases List.mem_cons.mp h with h' | h'
            · exact absurd h' hbc
            · exact h'
          simp [hc, ih this]
    have hk : ¬k = [] := by
      intro h0
      subst h0
      simp at hmem
    rw [isKeyValid, if_neg hk]
    exact hscan k hmem
  · intro l st name args e he
    rw [eventRun, he]
    exact ⟨rfl, rfl⟩
  · intro l st typ content args e he
    rcases (invalid_args_still_sends l st typ content args e he) with ⟨hs, ht, _⟩
    rw [hs]
    exact ⟨rfl, ht⟩

/-- Witness for `key_validation_errors`: the key `"a:b"` is rejected as
invalid, and an `Event` call with an empty name yields exactly one ERROR
record. -/
theorem key_validation_errors_witness :
    isKeyValid [97, 58, 98] = some KeyErr.keyInvalid
    ∧ eventRun ⟨-1, []⟩ [] [] [] = [mkErrorMsg ⟨-1, []⟩ [] (.keyErr .keyEmpty)] :=
  ⟨key_validation_errors.2.1 [97, 58, 98] 58 (by decide) (by decide),
   (key_validation_errors.2.2.1 ⟨-1, []⟩ [] [] [] .keyEmpty (by decide)).1⟩

/-! ### Delivery queue and flush (`SetListener` / `Flush`) -/

/-- State of the delivery queue: whether a listener is installed, the buffered
channel contents (`none` is the nil flush sentinel that `Flush` pushes), and
the messages the consumer goroutine has already handed to the listener, in
order. -/
structure QueueState where
  listenerOn : Bool
  ch : List (Option Message)
  delivered : List Message
  deriving DecidableEq, Repr

/-- Producers enqueue messages onto the channel (`ch <- msg` in `send`),
preserving arrival order. -/
def enqueueAll (q : QueueState) (msgs : List Message) : QueueState :=
  { q with ch := q.ch ++ msgs.map some }

/-- Consumer loop of `SetListener` run up to a flush sentinel: every message
before the first `nil` sentinel is handed to the listener in FIFO order; at
the sentinel the consumer signals `waitFlush` and the loop continues with the
rest of the channel. -/
def drainToFlush : List (Option Message) → List Message × List (Option Message)
  | [] => ([], [])
  | none :: rest => ([], rest)
  | some m :: rest =>
    let r := drainToFlush rest
    (m :: r.1, r.2)

/-- Faithful model of `Flush`: with no listener it returns immediately as a
no-op; with a listener it sends the `nil` sentinel on the channel and blocks
on `waitFlush` until the consumer has delivered everything enqueued before the
sentinel. -/
def flushRun (q : QueueState) : QueueState :=
  if q.listenerOn then
    let r := drainToFlush (q.ch ++ [none])
    ⟨true, r.2, q.delivered ++ r.1⟩
  else q

/-- C3: enqueueing any N messages while a listener is active and then calling
`Flush` guarantees the listener has observed exactly those N messages, in
enqueue order, before `Flush` returns; with no listener `Flush` is a no-op. -/
theorem flush_delivers_exactly_enqueued :
    (∀ (msgs delivered0 : List Message),
      flushRun (enqueueAll ⟨true, [], delivered0⟩ msgs) =
        ⟨true, [], delivered0 ++ msgs⟩)
    ∧ ∀ (ch : List (Option Message)) (delivered0 : List Message),
        flushRun ⟨false, ch, delivered0⟩ = ⟨false, ch, delivered0⟩ := by
  constructor
  · intro msgs d0
    have key : ∀ ms : List Message, drainToFlush (ms.map some ++ [none]) = (ms, []) := by
      intro ms
      induction ms with
      | nil => rfl
      | cons m t ih => simp [drainToFlush, ih]
    simp [flushRun, enqueueAll, key]
  · intro ch d0
    simp [flushRun]

/-! ### Read-side line scanner (`scanSayLines` / `getMessage`, listen package) -/

/-- The nine listen-side type tags, 5 bytes each: `EVENT`, `VALUE`, `GAUGE`,
`DEBUG`, `INFO `, `WARN `, `ERROR`, `FATAL`, `INIT `. -/
def listenTags : List (List Nat) :=
  [[69, 86, 69, 78, 84], [86, 65, 76, 85, 69], [71, 65, 85, 71, 69],
   [68, 69, 66, 85, 71], [73, 78, 70, 79, 32], [87, 65, 82, 78, 32],
   [69, 82, 82, 79, 82], [70, 65, 84, 65, 76], [73, 78, 73, 84, 32]]

/-- Faithful model of `getType` (listen): the first `typeLen = 5` bytes must
equal one of the fixed tags, otherwise the empty type (`none`). -/
def getTypeL (raw : List Nat) : Option (List Nat) :=
  if listenTags.contains (raw.take 5) then some (raw.take 5) else none

/-- A parsed listen-side `Message`: type tag, content, raw data segment. -/
structure ListenMsg where
  typ : List Nat
  content : List Nat
  rawData : List Nat
  deriving DecidableEq, Repr

/-- First index at which `pat` occurs as a contiguous run (`bytes.Index`). -/
def bytesIndex (pat : List Nat) : List Nat → Option Nat
  | [] => if pat = [] then some 0 else none
  | b :: rest =>
    if pat.isPrefixOf (b :: rest) then some 0
    else (bytesIndex pat rest).map (· + 1)

/-- Faithful model of `parseMessage` (listen): split at the first `"\t|"`;
the part before it is the content (continuation markers undone by
`parseContent`), the part after the 3-byte `"\t| "` separator is the raw data
segment. -/
def parseMessageL (raw : List Nat) : List Nat × List Nat :=
  match bytesIndex [9, 124] raw with
  | none => (parseContent raw, [])
  | some i => (parseContent (raw.take i), raw.drop (i + 3))

/-- Faithful model of `getMessage` (listen): a token whose first five bytes
are not a known tag is reported invalid (`none`); otherwise the message is
built from the bytes after the tag and the byte that follows it. -/
def getMessageL (raw : List Nat) : Option ListenMsg :=
  match getTypeL raw with
  | none => none
  | some t =>
    let cd := parseMessageL (raw.drop 6)
    some ⟨t, cd.1, cd.2⟩

/-- Observable read-side events: invalid-line reports through the
error-handling collaborator, and messages delivered to the handler. -/
inductive ScanEvent where
  | err : List Nat → ScanEvent
  | msg : ListenMsg → ScanEvent
  deriving DecidableEq, Repr

/-- Faithful model of one invocation of the split function `scanSayLines`:
`i` is the scan cursor.  Returns `(advance, token?, invalid-line reports)`.
The `discarded` accumulator of the Go loop is represented additively: every
exit of the loop returns `discarded + x`, so the model returns the advance
relative to the data it was given and the caller-side `discarded` offset adds
up through `i + j + 1 + r.1`.  The oversized-line report (`"line is way too
long"`, a fixed text) is modelled by the line itself. -/
def scanLoop (atEOF : Bool) (data : List Nat) (i : Nat) :
    Nat × Option (List Nat) × List (List Nat) :=
  match hj : (data.drop i).findIdx? (fun b => b == 10) with
  | some j =>
    if j < 6 then
      let r := scanLoop atEOF (data.drop (i + j + 1)) 0
      (i + j + 1 + r.1, r.2.1, data.take (i + j) :: r.2.2)
    else if 6 < j ∧ data.get? (i + j - 1) = some 32 then
      scanLoop atEOF data (i + j + 1)
    else
      (i + j + 1, some (data.take (i + j)), [])
  | none =>
    if atEOF then (data.length, none, [data])
    else if data.length < 6 then (0, none, [])
    else if getTypeL data = none ∨ data.get? 5 ≠ some 32 then
      (data.length, none, [data])
    else if 65536 ≤ data.length then (data.length, some data, [data])
    else (0, none, [])
termination_by 3 * data.length - i
decreasing_by
  all_goals
    have hlt : j < (data.drop i).length := (List.findIdx?_eq_some_iff_findIdx_eq.mp hj).1
    simp only [List.length_drop] at hlt ⊢
    omega

/-- Events produced from a scanned token: a message if the tag is known,
otherwise an invalid-line report (from `getMessage`). -/
def tokenEvents : Option (List Nat) → List ScanEvent
  | none => []
  | some t =>
    match getMessageL t with
    | none => [.err t]
    | some m => [.msg m]

/-- Scanner phase before EOF: repeated invocations of the split function with
`atEOF = false`, consuming the advance each time, until it requests more
input.  Returns the events in order and the unconsumed remainder. -/
def scanPhase1 (data : List Nat) : List ScanEvent × List Nat :=
  if (scanLoop false data 0).1 = 0 ∨ data = [] then ([], data)
  else
    ((scanLoop false data 0).2.2.map .err ++ tokenEvents (scanLoop false data 0).2.1 ++
        (scanPhase1 (data.drop (scanLoop false data 0).1)).1,
      (scanPhase1 (data.drop (scanLoop false data 0).1)).2)
termination_by data.length
decreasing_by
  all_goals
  rename_i h
  simp only [List.length_drop]
  have h1 : ¬(scanLoop false data 0).1 = 0 := fun hc => h (Or.inl hc)
  have h2 : ¬data = [] := fun hc => h (Or.inr hc)
  have : 0 < data.length := List.length_pos.mpr h2
  omega

/-- Scanner phase at EOF: repeated invocations with `atEOF = true` until the
input is exhausted.  (The advance at EOF is always positive on nonempty data;
the zero guard is only for totality.) -/
def scanPhase2 (data : List Nat) : List ScanEvent :=
  if (scanLoop true data 0).1 = 0 ∨ data = [] then []
  else
    (scanLoop true data 0).2.2.map .err ++ tokenEvents (scanLoop true data 0).2.1 ++
      scanPhase2 (data.drop (scanLoop true data 0).1)
termination_by data.length
decreasing_by
  rename_i h
  simp only [List.length_drop]
  have h1 : ¬(scanLoop true data 0).1 = 0 := fun hc => h (Or.inl hc)
  have h2 : ¬data = [] := fun hc => h (Or.inr hc)
  have : 0 < data.length := List.length_pos.mpr h2
  omega

/-- The complete read-side scan of a byte stream: the events of the pre-EOF
phase followed by those of the EOF phase on the remainder, exactly as
`bufio.Scanner` drives the split function when the whole stream is buffered. -/
def scanEvents (data : List Nat) : List ScanEvent :=
  (scanPhase1 data).1 ++ scanPhase2 (scanPhase1 data).2

theorem scanLoop_advance_zero (data : List Nat) (i : Nat)
    (h : (scanLoop false data i).1 = 0) :
    (scanLoop false data i).2.1 = none ∧ (scanLoop false data i).2.2 = [] := by
  induction data, i using scanLoop.induct false with
  | case1 data i j hj hlt ih =>
    rw [scanLoop, hj] at h
    simp only [if_pos hlt] at h
    omega
  | case2 data i j hj hlt hcont ih =>
    rw [scanLoop, hj] at h ⊢
    simp only [if_neg hlt, if_pos hcont] at h ⊢
    exact ih h
  | case3 data i j hj hlt hcont =>
    rw [scanLoop, hj] at h
    simp only [if_neg hlt, if_neg hcont] at h
    omega
  | case4 data i hj heof =>
    exact absurd heof (by decide)
  | case5 data i hj heof hshort =>
    rw [scanLoop, hj]
    simp only [heof, Bool.false_eq_true, if_false, if_pos hshort]
    exact ⟨trivial, trivial⟩
  | case6 data i hj heof hshort hbad =>
    rw [scanLoop, hj] at h
    simp only [heof, Bool.false_eq_true, if_false, if_neg hshort, if_pos hbad] at h
    omega
  | case7 data i hj heof hshort hbad hlong =>
    rw [scanLoop, hj] at h
    simp only [heof, Bool.false_eq_true, if_false, if_neg hshort, if_neg hbad,
      if_pos hlong] at h
    omega
  | case8 data i hj heof hshort hbad hlong =>
    rw [scanLoop, hj]
    simp only [heof, Bool.false_eq_true, if_false, if_neg hshort, if_neg hbad,
      if_neg hlong]
    exact ⟨trivial, trivial⟩

theorem findIdx_newline (L rest : List Nat) (h : ¬10 ∈ L) :
    ∀ k, (L ++ 10 :: rest).findIdx? (fun b => b == 10) k = some (k + L.length) := by
  induction L with
  | nil =>
    intro k
    simp [List.findIdx?_cons]
  | cons c t ih =>
    intro k
    have hc : ¬c = 10 := by
      intro hc
      exact h (by simp [hc])
    have ht : ¬10 ∈ t := by
      intro hm
      exact h (by simp [hm])
    rw [List.cons_append, List.findIdx?_cons]
    have hcb : (c == 10) = false := by
      simp [hc]
    rw [hcb]
    simp only [Bool.false_eq_true, if_false]
    rw [ih ht (k + 1)]
    congr 1
    simp [List.length_cons]
    omega

theorem scanLoop_nil : scanLoop false [] 0 = (0, none, []) := by
  rw [scanLoop]
  simp [List.findIdx?]

/-- Invalid-line shapes the scanner reports exactly once and then resumes at
the line boundary: a line shorter than tag-plus-separator, or a line whose
first five bytes are not a tag, provided it does not end in a space (a
trailing space marks a continuation line instead). -/
def invalidAlone (l : List Nat) : Prop :=
  l.length < 6 ∨ (getTypeL l = none ∧ (l.length = 6 ∨ l.getLast? ≠ some 32))

theorem scanLoop_invalid_line (L rest : List Nat) (hnl : ¬10 ∈ L)
    (hc : invalidAlone L) :
    scanLoop false (L ++ 10 :: rest) 0 =
      (if L.length < 6 then
        (L.length + 1 + (scanLoop false rest 0).1, (scanLoop false rest 0).2.1,
          L :: (scanLoop false rest 0).2.2)
      else (L.length + 1, some L, [])) := by
  have hfind := findIdx_newline L rest hnl 0
  have htake : (L ++ 10 :: rest).take L.length = L := List.take_left L (10 :: rest)
  have hdrop : (L ++ 10 :: rest).drop (L.length + 1) = rest := by
    rw [show L ++ 10 :: rest = (L ++ [10]) ++ rest by simp,
      show L.length + 1 = (L ++ [10]).length by simp]
    exact List.drop_left (L ++ [10]) rest
  rw [scanLoop]
  rw [show (L ++ 10 :: rest).drop 0 = L ++ 10 :: rest from List.drop_zero _]
  rw [hfind]
  simp only [Nat.zero_add]
  by_cases hlt : L.length < 6
  · simp only [if_pos hlt, htake, hdrop]
  · simp only [if_neg hlt]
    have hcont : ¬(6 < L.length ∧ (L ++ 10 :: rest).get? (L.length - 1) = some 32) := by
      rcases hc with h6 | ⟨htag, hlast⟩
      · omega
      · rcases hlast with h6 | hlast
        · omega
        · intro hand
          apply hlast
          have hL : 0 < L.length := by omega
          rw [List.get?_append (by omega : L.length - 1 < L.length)] at hand
          rw [List.getLast?_eq_get? L]
          exact hand.2
    simp only [if_neg hcont, htake]

theorem scanPhase1_invalid_line (L rest : List Nat) (hnl : ¬10 ∈ L)
    (hc : invalidAlone L) :
    scanPhase1 (L ++ 10 :: rest) =
      (.err L :: (scanPhase1 rest).1, (scanPhase1 rest).2) := by
  have hmain := scanLoop_invalid_line L rest hnl hc
  have hne : ¬(L ++ 10 :: rest) = [] := by simp
  rcases hR : scanLoop false rest 0 with ⟨a0, t0, e0⟩
  have hdropAdv : ∀ k, (L ++ 10 :: rest).drop (L.length + 1 + k) = rest.drop k := by
    intro k
    rw [show L ++ 10 :: rest = (L ++ [10]) ++ rest by simp,
      show L.length + 1 + k = (L ++ [10]).length + k by simp]
    exact List.drop_append k
  by_cases hlt : L.length < 6
  · rw [if_pos hlt, hR] at hmain
    dsimp only at hmain
    rw [scanPhase1, hmain]
    dsimp only
    rw [if_neg (by
      intro hor
      rcases hor with h0 | hnil
      · omega
      · exact hne hnil)]
    rw [hdropAdv a0]
    by_cases h0 : a0 = 0
    · subst h0
      have hz := scanLoop_advance_zero rest 0 (by rw [hR])
      rw [hR] at hz
      dsimp only at hz
      rw [hz.1, hz.2, List.drop_zero]
      simp [tokenEvents]
    · have hrne : ¬rest = [] := by
        intro hcon
        rw [hcon, scanLoop_nil] at hR
        injection hR with ha _
        exact h0 ha.symm
      conv_rhs => rw [scanPhase1]
      rw [hR]
      dsimp only
      rw [if_neg (by
        intro hor
        rcases hor with hz | hz
        · exact h0 hz
        · exact hrne hz)]
      simp
  · rw [if_neg hlt] at hmain
    rw [scanPhase1, hmain]
    dsimp only
    rw [if_neg (by
      intro hor
      rcases hor with h0 | hnil
      · omega
      · exact hne hnil)]
    rw [hdropAdv 0, List.drop_zero]
    have htag : getTypeL L = none := by
      rcases hc with h6 | hx
      · omega
      · exact hx.1
    simp [tokenEvents, getMessageL, htag]

/-- C8 (amended): an input line that is shorter than a tag plus separator, or
whose first five bytes are not one of the fixed type tags — provided it does
not end in a space — is reported through the error-handling collaborator as
exactly one invalid-line error, produces no message, and scanning resumes at
the next line boundary.  (A line whose first five bytes form a tag is accepted
as a message even when the sixth byte is not a space, and an invalid line
ending in a space is treated as a continuation head — see the
counterexample.) -/
theorem invalid_line_reported_once (L rest : List Nat) (hnl : ¬10 ∈ L)
    (hc : invalidAlone L) :
    scanEvents (L ++ 10 :: rest) = .err L :: scanEvents rest := by
  rw [scanEvents, scanEvents, scanPhase1_invalid_line L rest hnl hc]
  simp

/-- Witness for `invalid_line_reported_once`: parsing `"garbage\n"` reports
exactly one invalid-line error and yields no message. -/
theorem invalid_line_reported_once_witness :
    scanEvents ([103, 97, 114, 98, 97, 103, 101] ++ 10 :: []) =
      [.err [103, 97, 114, 98, 97, 103, 101]] := by
  rw [invalid_line_reported_once [103, 97, 114, 98, 97, 103, 101] []
    (by decide) (Or.inr ⟨by decide, Or.inr (by decide)⟩)]
  have hnil : scanEvents [] = [] := by
    rw [scanEvents]
    simp [scanPhase1, scanPhase2]
  rw [hnil]

/-- C8 (counterexample): the line `"EVENT#a\n"` does not begin with a type tag
followed by a space, yet the scanner produces a Message (type `EVENT`, content
`"a"`) for it and reports no invalid-line error — `getMessage` never checks
the byte after the five-byte tag. -/
theorem tag_without_space_still_parses :
    scanEvents [69, 86, 69, 78, 84, 35, 97, 10] =
      [.msg ⟨[69, 86, 69, 78, 84], [97], []⟩] := by
  have h1 : scanLoop false [69, 86, 69, 78, 84, 35, 97, 10] 0 =
      (8, some [69, 86, 69, 78, 84, 35, 97], []) := by
    rw [scanLoop]
    simp [List.findIdx?_cons]
  have h2 : scanPhase1 [69, 86, 69, 78, 84, 35, 97, 10] =
      ([.msg ⟨[69, 86, 69, 78, 84], [97], []⟩], []) := by
    rw [scanPhase1, h1]
    dsimp only
    rw [if_neg (by simp)]
    rw [show List.drop 8 [69, 86, 69, 78, 84, 35, 97, 10] = [] from rfl]
    rw [scanPhase1]
    rw [if_pos (Or.inr rfl)]
    simp [tokenEvents, getMessageL, getTypeL, listenTags, parseMessageL, bytesIndex,
      parseContent, blankMark, prefixBlankBytes, List.isPrefixOf]
  rw [scanEvents, h2]
  dsimp only
  rw [scanPhase2]
  simp

/-! ### UTF-8 decoding and encoding (Go `unicode/utf8`) -/

/-- Lower bound of the accepted second byte for a given lead byte, from the
`acceptRanges` table of `unicode/utf8` (`0xE0 → A0..BF`, `0xED → 80..9F`,
`0xF0 → 90..BF`, `0xF4 → 80..8F`, default `80..BF`). -/
def b1min (b0 : Nat) : Nat :=
  if b0 = 0xE0 then 0xA0 else if b0 = 0xF0 then 0x90 else 0x80

/-- Upper bound of the accepted second byte for a given lead byte. -/
def b1max (b0 : Nat) : Nat :=
  if b0 = 0xED then 0x9F else if b0 = 0xF4 then 0x8F else 0xBF

/-- Faithful model of `utf8.DecodeRuneInString` on byte lists: the decoded
rune and its width.  Invalid, short, non-minimal or surrogate encodings decode
to `(RuneError, 1) = (0xFFFD, 1)`; the empty string to `(RuneError, 0)`.  The
bit operations are written arithmetically. -/
def decodeRune : List Nat → Nat × Nat
  | [] => (0xFFFD, 0)
  | b0 :: rest =>
    if b0 < 0x80 then (b0, 1)
    else if b0 < 0xC2 then (0xFFFD, 1)
    else if b0 ≤ 0xDF then
      match rest with
      | b1 :: _ =>
        if 0x80 ≤ b1 ∧ b1 ≤ 0xBF then ((b0 - 0xC0) * 64 + (b1 - 0x80), 2)
        else (0xFFFD, 1)
      | [] => (0xFFFD, 1)
    else if b0 ≤ 0xEF then
      match rest with
      | b1 :: b2 :: _ =>
        if (b1min b0 ≤ b1 ∧ b1 ≤ b1max b0) ∧ (0x80 ≤ b2 ∧ b2 ≤ 0xBF) then
          ((b0 - 0xE0) * 4096 + (b1 - 0x80) * 64 + (b2 - 0x80), 3)
        else (0xFFFD, 1)
      | _ => (0xFFFD, 1)
    else if b0 ≤ 0xF4 then
      match rest with
      | b1 :: b2 :: b3 :: _ =>
        if (b1min b0 ≤ b1 ∧ b1 ≤ b1max b0) ∧ (0x80 ≤ b2 ∧ b2 ≤ 0xBF)
            ∧ (0x80 ≤ b3 ∧ b3 ≤ 0xBF) then
          ((b0 - 0xF0) * 262144 + (b1 - 0x80) * 4096 + (b2 - 0x80) * 64 + (b3 - 0x80), 4)
        else (0xFFFD, 1)
      | _ => (0xFFFD, 1)
    else (0xFFFD, 1)

/-- Faithful model of `utf8.EncodeRune` (arithmetic form of the bit
operations): surrogates and out-of-range runes encode `RuneError`. -/
def encodeRune (r : Nat) : List Nat :=
  if r < 0x80 then [r]
  else if r < 0x800 then [0xC0 + r / 64, 0x80 + r % 64]
  else if (0xD800 ≤ r ∧ r ≤ 0xDFFF) ∨ 0x10FFFF < r then [0xEF, 0xBF, 0xBD]
  else if r < 0x10000 then [0xE0 + r / 4096, 0x80 + r / 64 % 64, 0x80 + r % 64]
  else [0xF0 + r / 262144, 0x80 + r / 4096 % 64, 0x80 + r / 64 % 64, 0x80 + r % 64]

theorem decodeRune_width_pos (b0 : Nat) (rest : List Nat) :
    1 ≤ (decodeRune (b0 :: rest)).2 := by
  rcases rest with _ | ⟨b1, _ | ⟨b2, _ | ⟨b3, rr⟩⟩⟩ <;>
    · rw [decodeRune]
      repeat' split
      all_goals simp

theorem decodeRune_r_le (s : List Nat) : (decodeRune s).1 ≤ 0x10FFFF := by
  have hb1min : ∀ b0, 0x80 ≤ b1min b0 := by
    intro b0
    rw [b1min]
    repeat' split
    all_goals omega
  rcases s with _ | ⟨b0, _ | ⟨b1, _ | ⟨b2, _ | ⟨b3, rr⟩⟩⟩⟩ <;>
    · rw [decodeRune]
      repeat' split
      all_goals first
        | omega
        | (rename_i hcond
           have h1 := hb1min b0
           rw [b1max] at hcond
           revert hcond
           repeat' split
           all_goals omega)

theorem decodeRune_width_one (b0 : Nat) (rest : List Nat) (r : Nat)
    (h : decodeRune (b0 :: rest) = (r, 1)) : r = 0xFFFD ∨ (b0 < 0x80 ∧ r = b0) := by
  rcases rest with _ | ⟨b1, _ | ⟨b2, _ | ⟨b3, rr⟩⟩⟩ <;>
    · rw [decodeRune] at h
      revert h
      repeat' split
      all_goals
        intro h
        injection h with h1 h2
        first
          | omega
          | exact Or.inl h1.symm
          | exact Or.inr ⟨by omega, h1.symm⟩

theorem encode2 (b0 b1 : Nat) (h0 : 0xC2 ≤ b0) (h0' : b0 ≤ 0xDF)
    (h1 : 0x80 ≤ b1) (h1' : b1 ≤ 0xBF) :
    0x80 ≤ (b0 - 0xC0) * 64 + (b1 - 0x80) ∧ (b0 - 0xC0) * 64 + (b1 - 0x80) < 0x800 ∧
      encodeRune ((b0 - 0xC0) * 64 + (b1 - 0x80)) = [b0, b1] := by
  refine ⟨by omega, by omega, ?_⟩
  rw [encodeRune, if_neg (by omega), if_pos (by omega)]
  have e0 : 0xC0 + ((b0 - 0xC0) * 64 + (b1 - 0x80)) / 64 = b0 := by omega
  have e1 : 0x80 + ((b0 - 0xC0) * 64 + (b1 - 0x80)) % 64 = b1 := by omega
  rw [e0, e1]

theorem encode3 (b0 b1 b2 : Nat) (h0 : 0xE0 ≤ b0) (h0' : b0 ≤ 0xEF)
    (h1 : b1min b0 ≤ b1) (h1' : b1 ≤ b1max b0) (hb2 : 0x80 ≤ b2) (hb2' : b2 ≤ 0xBF) :
    0x800 ≤ (b0 - 0xE0) * 4096 + (b1 - 0x80) * 64 + (b2 - 0x80) ∧
      (b0 - 0xE0) * 4096 + (b1 - 0x80) * 64 + (b2 - 0x80) < 0x10000 ∧
      encodeRune ((b0 - 0xE0) * 4096 + (b1 - 0x80) * 64 + (b2 - 0x80)) = [b0, b1, b2] := by
  have hneF0 : ¬b0 = 0xF0 := by omega
  have hneF4 : ¬b0 = 0xF4 := by omega
  have h1n : (b0 = 0xE0 ∧ 0xA0 ≤ b1) ∨ (¬b0 = 0xE0 ∧ 0x80 ≤ b1) := by
    by_cases hA : b0 = 0xE0
    · rw [b1min, if_pos hA] at h1
      exact Or.inl ⟨hA, h1⟩
    · rw [b1min, if_neg hA, if_neg hneF0] at h1
      exact Or.inr ⟨hA, h1⟩
  have h2n : (b0 = 0xED ∧ b1 ≤ 0x9F) ∨ (¬b0 = 0xED ∧ b1 ≤ 0xBF) := by
    by_cases hB : b0 = 0xED
    · rw [b1max, if_pos hB] at h1'
      exact Or.inl ⟨hB, h1'⟩
    · rw [b1max, if_neg hB, if_neg hneF4] at h1'
      exact Or.inr ⟨hB, h1'⟩
  refine ⟨by omega, by omega, ?_⟩
  rw [encodeRune, if_neg (by omega), if_neg (by omega), if_neg (by omega),
    if_pos (by omega)]
  have e0 : 0xE0 + ((b0 - 0xE0) * 4096 + (b1 - 0x80) * 64 + (b2 - 0x80)) / 4096 = b0 := by
    omega
  have e1 : 0x80 + ((b0 - 0xE0) * 4096 + (b1 - 0x80) * 64 + (b2 - 0x80)) / 64 % 64 = b1 := by
    omega
  have e2 : 0x80 + ((b0 - 0xE0) * 4096 + (b1 - 0x80) * 64 + (b2 - 0x80)) % 64 = b2 := by
    omega
  rw [e0, e1, e2]

theorem encode4 (b0 b1 b2 b3 : Nat) (h0 : 0xF0 ≤ b0) (h0' : b0 ≤ 0xF4)
    (h1 : b1min b0 ≤ b1) (h1' : b1 ≤ b1max b0) (hb2 : 0x80 ≤ b2) (hb2' : b2 ≤ 0xBF)
    (hb3 : 0x80 ≤ b3) (hb3' : b3 ≤ 0xBF) :
    0x10000 ≤ (b0 - 0xF0) * 262144 + (b1 - 0x80) * 4096 + (b2 - 0x80) * 64 + (b3 - 0x80) ∧
      (b0 - 0xF0) * 262144 + (b1 - 0x80) * 4096 + (b2 - 0x80) * 64 + (b3 - 0x80) ≤ 0x10FFFF ∧
      encodeRune ((b0 - 0xF0) * 262144 + (b1 - 0x80) * 4096 + (b2 - 0x80) * 64 + (b3 - 0x80)) =
        [b0, b1, b2, b3] := by
  have hneE0 : ¬b0 = 0xE0 := by omega
  have hneED : ¬b0 = 0xED := by omega
  have h1n : (b0 = 0xF0 ∧ 0x90 ≤ b1) ∨ (¬b0 = 0xF0 ∧ 0x80 ≤ b1) := by
    by_cases hA : b0 = 0xF0
    · rw [b1min, if_neg hneE0, if_pos hA] at h1
      exact Or.inl ⟨hA, h1⟩
    · rw [b1min, if_neg hneE0, if_neg hA] at h1
      exact Or.inr ⟨hA, h1⟩
  have h2n : (b0 = 0xF4 ∧ b1 ≤ 0x8F) ∨ (¬b0 = 0xF4 ∧ b1 ≤ 0xBF) := by
    by_cases hB : b0 = 0xF4
    · rw [b1max, if_neg hneED, if_pos hB] at h1'
      exact Or.inl ⟨hB, h1'⟩
    · rw [b1max, if_neg hneED, if_neg hB] at h1'
      exact Or.inr ⟨hB, h1'⟩
  refine ⟨by omega, by omega, ?_⟩
  rw [encodeRune, if_neg (by omega), if_neg (by omega), if_neg (by omega),
    if_neg (by omega)]
  have e0 : 0xF0 +
      ((b0 - 0xF0) * 262144 + (b1 - 0x80) * 4096 + (b2 - 0x80) * 64 + (b3 - 0x80)) / 262144 =
      b0 := by
    omega
  have e1 : 0x80 +
      ((b0 - 0xF0) * 262144 + (b1 - 0x80) * 4096 + (b2 - 0x80) * 64 + (b3 - 0x80)) / 4096 % 64 =
      b1 := by
    omega
  have e2 : 0x80 +
      ((b0 - 0xF0) * 262144 + (b1 - 0x80) * 4096 + (b2 - 0x80) * 64 + (b3 - 0x80)) / 64 % 64 =
      b2 := by
    omega
  have e3 : 0x80 +
      ((b0 - 0xF0) * 262144 + (b1 - 0x80) * 4096 + (b2 - 0x80) * 64 + (b3 - 0x80)) % 64 =
      b3 := by
    omega
  rw [e0, e1, e2, e3]

theorem decodeRune_success (b0 : Nat) (rest : List Nat) (r w : Nat)
    (h : decodeRune (b0 :: rest) = (r, w)) (h2 : 2 ≤ w) :
    0x80 ≤ r ∧ r ≤ 0x10FFFF ∧ 0xC2 ≤ b0 ∧ w ≤ (b0 :: rest).length ∧
      encodeRune r = (b0 :: rest).take w ∧
      ∀ t, decodeRune ((b0 :: rest).take w ++ t) = (r, w) := by
  rcases rest with _ | ⟨b1, rest1⟩
  · rw [decodeRune] at h
    revert h
    repeat' split
    all_goals (intro h; injection h with h1 h2'; exact absurd h2 (by omega))
  · rw [decodeRune] at h
    by_cases hA : b0 < 0x80
    · rw [if_pos hA] at h
      injection h with h1 h2'
      exact absurd h2 (by omega)
    · rw [if_neg hA] at h
      by_cases hB : b0 < 0xC2
      · rw [if_pos hB] at h
        injection h with h1 h2'
        exact absurd h2 (by omega)
      · rw [if_neg hB] at h
        by_cases hC : b0 ≤ 0xDF
        · rw [if_pos hC] at h
          by_cases hcond : 0x80 ≤ b1 ∧ b1 ≤ 0xBF
          · rw [if_pos hcond] at h
            injection h with h1 h2'
            subst h1
            subst h2'
            obtain ⟨e1, e2, e3⟩ :=
              encode2 b0 b1 (by omega) (by omega) hcond.1 hcond.2
            refine ⟨by omega, by omega, by omega,
              by simp only [List.length_cons]; omega, e3.trans rfl, ?_⟩
            intro t
            show decodeRune (b0 :: b1 :: t) = ((b0 - 0xC0) * 64 + (b1 - 0x80), 2)
            rw [decodeRune, if_neg hA, if_neg hB, if_pos hC, if_pos hcond]
          · rw [if_neg hcond] at h
            injection h with h1 h2'
            exact absurd h2 (by omega)
        · rw [if_neg hC] at h
          by_cases hD : b0 ≤ 0xEF
          · rw [if_pos hD] at h
            rcases rest1 with _ | ⟨b2, rest2⟩
            · replace h : ((0xFFFD : Nat), (1 : Nat)) = (r, w) := h
              injection h with h1 h2'
              exact absurd h2 (by omega)
            · replace h :
                (if (b1min b0 ≤ b1 ∧ b1 ≤ b1max b0) ∧ (0x80 ≤ b2 ∧ b2 ≤ 0xBF) then
                    ((b0 - 0xE0) * 4096 + (b1 - 0x80) * 64 + (b2 - 0x80), 3)
                  else ((0xFFFD : Nat), (1 : Nat))) = (r, w) := h
              by_cases hcond : (b1min b0 ≤ b1 ∧ b1 ≤ b1max b0) ∧ (0x80 ≤ b2 ∧ b2 ≤ 0xBF)
              · rw [if_pos hcond] at h
                injection h with h1 h2'
                subst h1
                subst h2'
                obtain ⟨e1, e2, e3⟩ :=
                  encode3 b0 b1 b2 (by omega) (by omega) hcond.1.1 hcond.1.2
                    hcond.2.1 hcond.2.2
                refine ⟨by omega, by omega, by omega,
                  by simp only [List.length_cons]; omega, e3.trans rfl, ?_⟩
                intro t
                show decodeRune (b0 :: b1 :: b2 :: t) =
                  ((b0 - 0xE0) * 4096 + (b1 - 0x80) * 64 + (b2 - 0x80), 3)
                rw [decodeRune, if_neg hA, if_neg hB, if_neg hC, if_pos hD]
                show (if (b1min b0 ≤ b1 ∧ b1 ≤ b1max b0) ∧ (0x80 ≤ b2 ∧ b2 ≤ 0xBF) then
                    ((b0 - 0xE0) * 4096 + (b1 - 0x80) * 64 + (b2 - 0x80), 3)
                  else ((0xFFFD : Nat), (1 : Nat))) =
                  ((b0 - 0xE0) * 4096 + (b1 - 0x80) * 64 + (b2 - 0x80), 3)
                rw [if_pos hcond]
              · rw [if_neg hcond] at h
                injection h with h1 h2'
                exact absurd h2 (by omega)
          · rw [if_neg hD] at h
            by_cases hE : b0 ≤ 0xF4
            · rw [if_pos hE] at h
              rcases rest1 with _ | ⟨b2, _ | ⟨b3, rest3⟩⟩
              · replace h : ((0xFFFD : Nat), (1 : Nat)) = (r, w) := h
                injection h with h1 h2'
                exact absurd h2 (by omega)
              · replace h : ((0xFFFD : Nat), (1 : Nat)) = (r, w) := h
                injection h with h1 h2'
                exact absurd h2 (by omega)
              · replace h :
                  (if (b1min b0 ≤ b1 ∧ b1 ≤ b1max b0) ∧ (0x80 ≤ b2 ∧ b2 ≤ 0xBF)
                      ∧ (0x80 ≤ b3 ∧ b3 ≤ 0xBF) then
                      ((b0 - 0xF0) * 262144 + (b1 - 0x80) * 4096 + (b2 - 0x80) * 64 +
                        (b3 - 0x80), 4)
                    else ((0xFFFD : Nat), (1 : Nat))) = (r, w) := h
                by_cases hcond : (b1min b0 ≤ b1 ∧ b1 ≤ b1max b0) ∧ (0x80 ≤ b2 ∧ b2 ≤ 0xBF)
                    ∧ (0x80 ≤ b3 ∧ b3 ≤ 0xBF)
                · rw [if_pos hcond] at h
                  injection h with h1 h2'
                  subst h1
                  subst h2'
                  obtain ⟨e1, e2, e3⟩ :=
                    encode4 b0 b1 b2 b3 (by omega) (by omega) hcond.1.1 hcond.1.2
                      hcond.2.1.1 hcond.2.1.2 hcond.2.2.1 hcond.2.2.2
                  refine ⟨by omega, by omega, by omega,
                    by simp only [List.length_cons]; omega, e3.trans rfl, ?_⟩
                  intro t
                  show decodeRune (b0 :: b1 :: b2 :: b3 :: t) =
                    ((b0 - 0xF0) * 262144 + (b1 - 0x80) * 4096 + (b2 - 0x80) * 64 +
                      (b3 - 0x80), 4)
                  rw [decodeRune, if_neg hA, if_neg hB, if_neg hC, if_neg hD, if_pos hE]
                  show (if (b1min b0 ≤ b1 ∧ b1 ≤ b1max b0) ∧ (0x80 ≤ b2 ∧ b2 ≤ 0xBF)
                      ∧ (0x80 ≤ b3 ∧ b3 ≤ 0xBF) then
                      ((b0 - 0xF0) * 262144 + (b1 - 0x80) * 4096 + (b2 - 0x80) * 64 +
                        (b3 - 0x80), 4)
                    else ((0xFFFD : Nat), (1 : Nat))) =
                    ((b0 - 0xF0) * 262144 + (b1 - 0x80) * 4096 + (b2 - 0x80) * 64 +
                      (b3 - 0x80), 4)
                  rw [if_pos hcond]
                · rw [if_neg hcond] at h
                  injection h with h1 h2'
                  exact absurd h2 (by omega)
            · rw [if_neg hE] at h
              injection h with h1 h2'
              exact absurd h2 (by omega)

/-- The `lowerhex` digit table of base.go, indexed arithmetically. -/
def hexChar (d : Nat) : Nat := if d < 10 then 48 + d else 87 + d

/-- The four hex digits emitted for a `\\u` escape (high nibble first),
modelling the `for s := 12; s >= 0; s -= 4` loop. -/
def hexDigits4 (r : Nat) : List Nat :=
  [hexChar (r / 4096 % 16), hexChar (r / 256 % 16), hexChar (r / 16 % 16), hexChar (r % 16)]

/-- The eight hex digits emitted for a `\\U` escape (`for s := 28; ...`). -/
def hexDigits8 (r : Nat) : List Nat :=
  [hexChar (r / 0x10000000 % 16), hexChar (r / 0x1000000 % 16),
    hexChar (r / 0x100000 % 16), hexChar (r / 0x10000 % 16)] ++ hexDigits4 r

/-- Faithful model of the loop of `buffer.appendQuoteString` (base.go, an
adapted `strconv.quoteWith`): the bytes produced between the two enclosing
quotes.  `isPrint` abstracts `strconv.IsPrint` and its Unicode tables.  The Go
loop reads `r, width := utf8.DecodeRuneInString(s)` (with the ASCII shortcut,
which agrees with `decodeRune`) and advances by `s = s[width:]` each turn. -/
def quoteBody (isPrint : Nat → Bool) : List Nat → List Nat
  | [] => []
  | b0 :: rest =>
    if (decodeRune (b0 :: rest)).2 = 1 ∧ (decodeRune (b0 :: rest)).1 = 0xFFFD then
      92 :: 120 :: hexChar (b0 / 16) :: hexChar (b0 % 16) ::
        quoteBody isPrint ((b0 :: rest).drop (decodeRune (b0 :: rest)).2)
    else if (decodeRune (b0 :: rest)).1 = 34 ∨ (decodeRune (b0 :: rest)).1 = 92 then
      92 :: (decodeRune (b0 :: rest)).1 ::
        quoteBody isPrint ((b0 :: rest).drop (decodeRune (b0 :: rest)).2)
    else if isPrint (decodeRune (b0 :: rest)).1 then
      encodeRune (decodeRune (b0 :: rest)).1 ++
        quoteBody isPrint ((b0 :: rest).drop (decodeRune (b0 :: rest)).2)
    else if (decodeRune (b0 :: rest)).1 = 7 then
      92 :: 97 :: quoteBody isPrint ((b0 :: rest).drop (decodeRune (b0 :: rest)).2)
    else if (decodeRune (b0 :: rest)).1 = 8 then
      92 :: 98 :: quoteBody isPrint ((b0 :: rest).drop (decodeRune (b0 :: rest)).2)
    else if (decodeRune (b0 :: rest)).1 = 12 then
      92 :: 102 :: quoteBody isPrint ((b0 :: rest).drop (decodeRune (b0 :: rest)).2)
    else if (decodeRune (b0 :: rest)).1 = 10 then
      92 :: 110 :: quoteBody isPrint ((b0 :: rest).drop (decodeRune (b0 :: rest)).2)
    else if (decodeRune (b0 :: rest)).1 = 13 then
      92 :: 114 :: quoteBody isPrint ((b0 :: rest).drop (decodeRune (b0 :: rest)).2)
    else if (decodeRune (b0 :: rest)).1 = 9 then
      92 :: 116 :: quoteBody isPrint ((b0 :: rest).drop (decodeRune (b0 :: rest)).2)
    else if (decodeRune (b0 :: rest)).1 = 11 then
      92 :: 118 :: quoteBody isPrint ((b0 :: rest).drop (decodeRune (b0 :: rest)).2)
    else if (decodeRune (b0 :: rest)).1 < 32 then
      92 :: 120 :: hexChar (b0 / 16) :: hexChar (b0 % 16) ::
        quoteBody isPrint ((b0 :: rest).drop (decodeRune (b0 :: rest)).2)
    else if 0x10FFFF < (decodeRune (b0 :: rest)).1 then
      92 :: 117 :: (hexDigits4 0xFFFD ++
        quoteBody isPrint ((b0 :: rest).drop (decodeRune (b0 :: rest)).2))
    else if (decodeRune (b0 :: rest)).1 < 0x10000 then
      92 :: 117 :: (hexDigits4 (decodeRune (b0 :: rest)).1 ++
        quoteBody isPrint ((b0 :: rest).drop (decodeRune (b0 :: rest)).2))
    else
      92 :: 85 :: (hexDigits8 (decodeRune (b0 :: rest)).1 ++
        quoteBody isPrint ((b0 :: rest).drop (decodeRune (b0 :: rest)).2))
termination_by s => s.length
decreasing_by
  all_goals
    simp only [List.length_drop, List.length_cons]
    exact Nat.sub_lt (by omega) (decodeRune_width_pos _ _)

/-- `buffer.appendQuoteString`, modelled as the byte sequence it appends:
an opening quote, the escaped body, a closing quote. -/
def appendQuoteString (isPrint : Nat → Bool) (s : List Nat) : List Nat :=
  34 :: (quoteBody isPrint s ++ [34])

/-- `strconv`'s `unhex`. -/
def unhex (c : Nat) : Option Nat :=
  if 48 ≤ c ∧ c ≤ 57 then some (c - 48)
  else if 97 ≤ c ∧ c ≤ 102 then some (c - 97 + 10)
  else if 65 ≤ c ∧ c ≤ 70 then some (c - 65 + 10)
  else none

/-- Two hex digits read by the unrolled `for j := 0; j < n` loop of
`strconv.UnquoteChar` (the `\\x` case): the accumulated value and the rest. -/
def unhex2 : List Nat → Option (Nat × List Nat)
  | h1 :: h2 :: s3 =>
    match unhex h1, unhex h2 with
    | some x1, some x2 => some (x1 * 16 + x2, s3)
    | _, _ => none
  | _ => none

/-- Four hex digits (the `\\u` case). -/
def unhex4 : List Nat → Option (Nat × List Nat)
  | h1 :: h2 :: h3 :: h4 :: s3 =>
    match unhex h1, unhex h2, unhex h3, unhex h4 with
    | some x1, some x2, some x3, some x4 =>
      some (((x1 * 16 + x2) * 16 + x3) * 16 + x4, s3)
    | _, _, _, _ => none
  | _ => none

/-- Eight hex digits (the `\\U` case). -/
def unhex8 : List Nat → Option (Nat × List Nat)
  | h1 :: h2 :: h3 :: h4 :: h5 :: h6 :: h7 :: h8 :: s3 =>
    match unhex h1, unhex h2, unhex h3, unhex h4,
        unhex h5, unhex h6, unhex h7, unhex h8 with
    | some x1, some x2, some x3, some x4, some x5, some x6, some x7, some x8 =>
      some (((((((x1 * 16 + x2) * 16 + x3) * 16 + x4) * 16 + x5) * 16 + x6)
        * 16 + x7) * 16 + x8, s3)
    | _, _, _, _, _, _, _, _ => none
  | _ => none

/-- The second and third octal digits of an octal escape. -/
def octal2 : List Nat → Option (Nat × List Nat)
  | d2 :: d3 :: s3 =>
    if (48 ≤ d2 ∧ d2 ≤ 55) ∧ (48 ≤ d3 ∧ d3 ≤ 55) then
      some ((d2 - 48) * 8 + (d3 - 48), s3)
    else none
  | _ => none

/-- The byte-for-byte escape arms of `strconv.UnquoteChar`'s backslash
switch (`\\a \\b \\f \\n \\r \\t \\v \\\\ \\"`), collected into one table; the
arms are disjoint, so the dispatch order is immaterial.  `\\'` is the error
case because the quote argument is `"`. -/
def escSimple (e : Nat) : Option Nat :=
  if e = 97 then some 7
  else if e = 98 then some 8
  else if e = 102 then some 12
  else if e = 110 then some 10
  else if e = 114 then some 13
  else if e = 116 then some 9
  else if e = 118 then some 11
  else if e = 92 then some 92
  else if e = 34 then some 34
  else none

/-- The escape-sequence part of `strconv.UnquoteChar` (the backslash arm), on
the input following the backslash. -/
def unquoteEsc : List Nat → Option (Nat × Bool × List Nat)
  | [] => none
  | e :: s2 =>
    match escSimple e with
    | some v => some (v, false, s2)
    | none =>
      if e = 120 then (unhex2 s2).map (fun vs => (vs.1, false, vs.2))
      else if e = 117 then
        (unhex4 s2).bind (fun vs =>
          if 0x10FFFF < vs.1 then none else some (vs.1, true, vs.2))
      else if e = 85 then
        (unhex8 s2).bind (fun vs =>
          if 0x10FFFF < vs.1 then none else some (vs.1, true, vs.2))
      else if 48 ≤ e ∧ e ≤ 55 then
        (octal2 s2).bind (fun vs =>
          if 255 < (e - 48) * 64 + vs.1 then none
          else some ((e - 48) * 64 + vs.1, false, vs.2))
      else none

/-- Faithful model of `strconv.UnquoteChar` with quote character `"`:
returns the decoded rune value, the multibyte flag, and the remaining input. -/
def unquoteChar : List Nat → Option (Nat × Bool × List Nat)
  | [] => none
  | c :: s =>
    if c = 34 then none
    else if 0x80 ≤ c then
      some ((decodeRune (c :: s)).1, true, (c :: s).drop (decodeRune (c :: s)).2)
    else if c = 92 then unquoteEsc s
    else some (c, false, s)

theorem unhex2_length (s : List Nat) (v : Nat) (t : List Nat) (h : unhex2 s = some (v, t)) :
    t.length < s.length := by
  rcases s with _ | ⟨a, _ | ⟨b, t0⟩⟩
  · cases h
  · cases h
  · rw [unhex2] at h
    revert h
    repeat' split
    all_goals try intro h
    all_goals try cases h
    all_goals simp only [List.length_cons]
    all_goals omega

theorem unhex4_length (s : List Nat) (v : Nat) (t : List Nat) (h : unhex4 s = some (v, t)) :
    t.length < s.length := by
  rcases s with _ | ⟨a, _ | ⟨b, _ | ⟨c, _ | ⟨d, t0⟩⟩⟩⟩
  · cases h
  · cases h
  · cases h
  · cases h
  · rw [unhex4] at h
    revert h
    repeat' split
    all_goals try intro h
    all_goals try cases h
    all_goals simp only [List.length_cons]
    all_goals omega

theorem unhex8_length (s : List Nat) (v : Nat) (t : List Nat) (h : unhex8 s = some (v, t)) :
    t.length < s.length := by
  rcases s with _ | ⟨a1, _ | ⟨a2, _ | ⟨a3, _ | ⟨a4, _ | ⟨a5, _ | ⟨a6, _ | ⟨a7, _ | ⟨a8, t0⟩⟩⟩⟩⟩⟩⟩⟩
  · cases h
  · cases h
  · cases h
  · cases h
  · cases h
  · cases h
  · cases h
  · cases h
  · rw [unhex8] at h
    revert h
    repeat' split
    all_goals try intro h
    all_goals try cases h
    all_goals simp only [List.length_cons]
    all_goals omega

theorem octal2_length (s : List Nat) (v : Nat) (t : List Nat) (h : octal2 s = some (v, t)) :
    t.length < s.length := by
  rcases s with _ | ⟨a, _ | ⟨b, t0⟩⟩
  · cases h
  · cases h
  · rw [octal2] at h
    revert h
    repeat' split
    all_goals try intro h
    all_goals try cases h
    all_goals simp only [List.length_cons]
    all_goals omega

theorem unquoteEsc_length (s : List Nat) (c : Nat) (mb : Bool) (t : List Nat)
    (h : unquoteEsc s = some (c, mb, t)) : t.length < s.length := by
  rcases s with _ | ⟨e, s2⟩
  · cases h
  · rw [unquoteEsc] at h
    revert h
    repeat' split
    all_goals try intro h
    all_goals try cases h
    all_goals first
      | (simp only [List.length_cons]
         omega)
      | (rw [Option.map_eq_some'] at h
         obtain ⟨⟨v, s3⟩, hx, hf⟩ := h
         replace hf : (v, false, s3) = (c, mb, t) := hf
         injection hf with h2 h3
         injection h3 with h4 h5
         subst h5
         have hlt := unhex2_length s2 v s3 hx
         simp only [List.length_cons]
         omega)
      | (rw [Option.bind_eq_some'] at h
         obtain ⟨⟨v, s3⟩, hx, hf⟩ := h
         revert hf
         split
         · intro hf
           cases hf
         · intro hf
           first
             | replace hf : some (v, true, s3) = some (c, mb, t) := hf
             | replace hf : some ((e - 48) * 64 + v, false, s3) = some (c, mb, t) := hf
           injection hf with h1
           injection h1 with h2 h3
           injection h3 with h4 h5
           subst h5
           have h4l := unhex4_length s2 v s3
           have h8l := unhex8_length s2 v s3
           have hol := octal2_length s2 v s3
           simp only [List.length_cons]
           first
             | (have hlt := h4l hx; omega)
             | (have hlt := h8l hx; omega)
             | (have hlt := hol hx; omega))

theorem unquoteChar_length (b : Nat) (s1 : List Nat) (c : Nat) (mb : Bool) (t : List Nat)
    (h : unquoteChar (b :: s1) = some (c, mb, t)) : t.length < (b :: s1).length := by
  rw [unquoteChar] at h
  revert h
  repeat' split
  all_goals try intro h
  all_goals try cases h
  all_goals first
    | (simp only [List.length_drop, List.length_cons]
       omega)
    | (have hwp := decodeRune_width_pos b s1
       simp only [List.length_drop, List.length_cons]
       omega)
    | (have hel := unquoteEsc_length s1 c mb t h
       simp only [List.length_cons]
       omega)

/-- Faithful model of the `UnquoteChar` loop of `strconv.Unquote`: each
decoded rune is appended as a single byte when it is ASCII or the multibyte
flag is unset, and UTF-8 encoded otherwise. -/
def unquoteLoop : List Nat → Option (List Nat)
  | [] => some []
  | b :: rest =>
    match hc : unquoteChar (b :: rest) with
    | none => none
    | some (c, mb, t) =>
      match unquoteLoop t with
      | none => none
      | some out => some ((if c < 0x80 ∨ mb = false then [c] else encodeRune c) ++ out)
termination_by s => s.length
decreasing_by
  exact unquoteChar_length b rest c mb t hc

theorem unquoteLoop_cons (b : Nat) (rest : List Nat) (c : Nat) (mb : Bool) (t : List Nat)
    (hc : unquoteChar (b :: rest) = some (c, mb, t)) :
    unquoteLoop (b :: rest) =
      match unquoteLoop t with
      | none => none
      | some out => some ((if c < 0x80 ∨ mb = false then [c] else encodeRune c) ++ out) := by
  rw [unquoteLoop]
  split
  · rename_i heq
    rw [hc] at heq
    cases heq
  · rename_i c2 mb2 t2 heq
    rw [hc] at heq
    injection heq with h1
    injection h1 with h2 h3
    injection h3 with h4 h5
    subst h2
    subst h4
    subst h5
    rfl

/-- Faithful model of the read side's `parseValue` (part of `Message.Data`):
the value-boundary scan.  The empty input case cannot be reached from
`Message.Data`, which checks for an exhausted buffer first. -/
def parseValue (s : List Nat) : Nat × List Nat :=
  match s with
  | [] => (0, [])
  | b :: rest =>
    if b = 34 then
      match rest.findIdx? (fun c => c = 34) with
      | some j => (j + 2, (b :: rest).take (j + 2))
      | none => (0, [])
    else
      match (b :: rest).findIdx? (fun c => c = 32) with
      | some j => (j, (b :: rest).take j)
      | none => ((b :: rest).length, b :: rest)

/-- Faithful model of `strconv.Unquote` for double-quoted tokens, as called
by `Data.GetString`.  The back-quote and single-quote branches are
unreachable for tokens produced by `appendQuoteString` and are collapsed
into the leading error cases. -/
def unquote (s : List Nat) : Option (List Nat) :=
  if s.length < 2 then none
  else if ¬s.head? = s.getLast? then none
  else if ¬s.head? = some 34 then none
  else
    if 10 ∈ (s.drop 1).dropLast then none
    else if ¬92 ∈ (s.drop 1).dropLast ∧ ¬34 ∈ (s.drop 1).dropLast then
      some ((s.drop 1).dropLast)
    else unquoteLoop ((s.drop 1).dropLast)

theorem hexChar_ge (d : Nat) : 48 ≤ hexChar d := by
  rw [hexChar]
  split <;> omega

theorem unhex_hexChar (d : Nat) (h : d < 16) : unhex (hexChar d) = some d := by
  rw [hexChar]
  by_cases h10 : d < 10
  · rw [if_pos h10, unhex, if_pos (by omega)]
    exact congrArg some (by omega)
  · rw [if_neg h10, unhex, if_neg (by omega), if_pos (by omega)]
    exact congrArg some (by omega)

theorem encodeRune_mem (r b : Nat) (h : b ∈ encodeRune r) : b = r ∨ 0x80 ≤ b := by
  rw [encodeRune] at h
  revert h
  repeat' split
  all_goals (intro h; simp only [List.mem_cons, List.not_mem_nil, or_false] at h; omega)

theorem unhex2_byte (b : Nat) (rec : List Nat) (hb : b < 256) :
    unhex2 (hexChar (b / 16) :: hexChar (b % 16) :: rec) = some (b, rec) := by
  rw [unhex2, unhex_hexChar _ (by omega), unhex_hexChar _ (by omega)]
  exact congrArg (fun x => some (x, rec)) (by omega)

theorem unhex4_digits (r : Nat) (rec : List Nat) (hr : r < 0x10000) :
    unhex4 (hexChar (r / 4096 % 16) :: hexChar (r / 256 % 16) ::
      hexChar (r / 16 % 16) :: hexChar (r % 16) :: rec) = some (r, rec) := by
  rw [unhex4, unhex_hexChar _ (by omega), unhex_hexChar _ (by omega),
    unhex_hexChar _ (by omega), unhex_hexChar _ (by omega)]
  exact congrArg (fun x => some (x, rec)) (by omega)

theorem unhex8_digits (r : Nat) (rec : List Nat) (hr : r < 0x100000000) :
    unhex8 (hexChar (r / 0x10000000 % 16) :: hexChar (r / 0x1000000 % 16) ::
      hexChar (r / 0x100000 % 16) :: hexChar (r / 0x10000 % 16) ::
      hexChar (r / 4096 % 16) :: hexChar (r / 256 % 16) ::
      hexChar (r / 16 % 16) :: hexChar (r % 16) :: rec) = some (r, rec) := by
  rw [unhex8, unhex_hexChar _ (by omega), unhex_hexChar _ (by omega),
    unhex_hexChar _ (by omega), unhex_hexChar _ (by omega),
    unhex_hexChar _ (by omega), unhex_hexChar _ (by omega),
    unhex_hexChar _ (by omega), unhex_hexChar _ (by omega)]
  exact congrArg (fun x => some (x, rec)) (by omega)

theorem unquoteChar_plain (c : Nat) (rec : List Nat) (h1 : ¬c = 34) (h2 : c < 0x80)
    (h3 : ¬c = 92) : unquoteChar (c :: rec) = some (c, false, rec) := by
  rw [unquoteChar, if_neg h1, if_neg (by omega), if_neg h3]

theorem unquoteChar_mb (c : Nat) (rec : List Nat) (h1 : 0x80 ≤ c) :
    unquoteChar (c :: rec) =
      some ((decodeRune (c :: rec)).1, true, (c :: rec).drop (decodeRune (c :: rec)).2) := by
  rw [unquoteChar, if_neg (by omega), if_pos h1]

theorem unquoteChar_esc (e v : Nat) (rec : List Nat) (he : escSimple e = some v) :
    unquoteChar (92 :: e :: rec) = some (v, false, rec) := by
  simp [unquoteChar, unquoteEsc, he]

theorem unquoteChar_hex (b : Nat) (rec : List Nat) (hb : b < 256) :
    unquoteChar (92 :: 120 :: hexChar (b / 16) :: hexChar (b % 16) :: rec) =
      some (b, false, rec) := by
  have h2 := unhex2_byte b rec hb
  simp [unquoteChar, unquoteEsc, escSimple, h2]

theorem unquoteChar_u (r : Nat) (rec : List Nat) (hr : r < 0x10000) :
    unquoteChar (92 :: 117 :: (hexDigits4 r ++ rec)) = some (r, true, rec) := by
  have h4 := unhex4_digits r rec hr
  simp [unquoteChar, unquoteEsc, escSimple, hexDigits4, h4]
  omega

theorem unquoteChar_U (r : Nat) (rec : List Nat) (hr : r ≤ 0x10FFFF) :
    unquoteChar (92 :: 85 :: (hexDigits8 r ++ rec)) = some (r, true, rec) := by
  have h8 := unhex8_digits r rec (by omega)
  simp [unquoteChar, unquoteEsc, escSimple, hexDigits8, hexDigits4, h8]
  omega

theorem hexDigits4_ge (r : Nat) : ∀ x ∈ hexDigits4 r, 48 ≤ x := by
  simp only [hexDigits4, List.mem_cons, List.not_mem_nil, or_false]
  rintro x (h | h | h | h) <;> (subst h; exact hexChar_ge _)

theorem hexDigits8_ge (r : Nat) : ∀ x ∈ hexDigits8 r, 48 ≤ x := by
  simp only [hexDigits8, List.mem_append, List.mem_cons, List.not_mem_nil, or_false]
  rintro x (⟨h | h | h | h⟩ | h)
  · subst h; exact hexChar_ge _
  · subst h; exact hexChar_ge _
  · subst h; exact hexChar_ge _
  · subst h; exact hexChar_ge _
  · exact hexDigits4_ge r x h

theorem rune_cases (b : Nat) (rest : List Nat)
    (hne : ¬((decodeRune (b :: rest)).2 = 1 ∧ (decodeRune (b :: rest)).1 = 0xFFFD)) :
    ((decodeRune (b :: rest)).1 = b ∧ (decodeRune (b :: rest)).2 = 1 ∧ b < 0x80) ∨
      (2 ≤ (decodeRune (b :: rest)).2 ∧ 0x80 ≤ (decodeRune (b :: rest)).1 ∧
        (decodeRune (b :: rest)).1 ≤ 0x10FFFF ∧ 0xC2 ≤ b ∧
        (decodeRune (b :: rest)).2 ≤ (b :: rest).length ∧
        encodeRune (decodeRune (b :: rest)).1 = (b :: rest).take (decodeRune (b :: rest)).2 ∧
        ∀ t, decodeRune ((b :: rest).take (decodeRune (b :: rest)).2 ++ t) =
          ((decodeRune (b :: rest)).1, (decodeRune (b :: rest)).2)) := by
  have hpair : decodeRune (b :: rest) =
      ((decodeRune (b :: rest)).1, (decodeRune (b :: rest)).2) := rfl
  by_cases h2 : 2 ≤ (decodeRune (b :: rest)).2
  · right
    obtain ⟨a1, a2, a3, a4, a5, a6⟩ := decodeRune_success b rest _ _ hpair h2
    exact ⟨h2, a1, a2, a3, a4, a5, a6⟩
  · left
    have hwp := decodeRune_width_pos b rest
    have hw1 : (decodeRune (b :: rest)).2 = 1 := by omega
    have hp2 : decodeRune (b :: rest) = ((decodeRune (b :: rest)).1, 1) :=
      hpair.trans (by rw [hw1])
    rcases decodeRune_width_one b rest (decodeRune (b :: rest)).1 hp2 with h | ⟨hblt, hpb⟩
    · exact absurd ⟨hw1, h⟩ hne
    · exact ⟨hpb, hw1, hblt⟩

theorem rune_ascii (b : Nat) (rest : List Nat)
    (hlt : (decodeRune (b :: rest)).1 < 0x80)
    (hne : ¬((decodeRune (b :: rest)).2 = 1 ∧ (decodeRune (b :: rest)).1 = 0xFFFD)) :
    (decodeRune (b :: rest)).1 = b ∧ (decodeRune (b :: rest)).2 = 1 ∧ b < 0x80 := by
  rcases rune_cases b rest hne with h | h
  · exact h
  · exact absurd hlt (by omega)

theorem quoteBody_eq_1 (isPrint : Nat → Bool) (b : Nat) (rest : List Nat)
    (h1 : (decodeRune (b :: rest)).2 = 1 ∧ (decodeRune (b :: rest)).1 = 0xFFFD) :
    quoteBody isPrint (b :: rest) = 92 :: 120 :: hexChar (b / 16) :: hexChar (b % 16) :: quoteBody isPrint ((b :: rest).drop (decodeRune (b :: rest)).2) := by
  simp only [quoteBody]
  rw [if_pos h1]

theorem quoteBody_eq_2 (isPrint : Nat → Bool) (b : Nat) (rest : List Nat)
    (h1 : ¬((decodeRune (b :: rest)).2 = 1 ∧ (decodeRune (b :: rest)).1 = 0xFFFD))
    (h2 : (decodeRune (b :: rest)).1 = 34 ∨ (decodeRune (b :: rest)).1 = 92) :
    quoteBody isPrint (b :: rest) = 92 :: (decodeRune (b :: rest)).1 :: quoteBody isPrint ((b :: rest).drop (decodeRune (b :: rest)).2) := by
  simp only [quoteBody]
  rw [if_neg h1, if_pos h2]

theorem quoteBody_eq_3 (isPrint : Nat → Bool) (b : Nat) (rest : List Nat)
    (h1 : ¬((decodeRune (b :: rest)).2 = 1 ∧ (decodeRune (b :: rest)).1 = 0xFFFD))
    (h2 : ¬((decodeRune (b :: rest)).1 = 34 ∨ (decodeRune (b :: rest)).1 = 92))
    (h3 : isPrint (decodeRune (b :: rest)).1 = true) :
    quoteBody isPrint (b :: rest) = encodeRune (decodeRune (b :: rest)).1 ++ quoteBody isPrint ((b :: rest).drop (decodeRune (b :: rest)).2) := by
  simp only [quoteBody]
  rw [if_neg h1, if_neg h2, if_pos h3]

theorem quoteBody_eq_4 (isPrint : Nat → Bool) (b : Nat) (rest : List Nat)
    (h1 : ¬((decodeRune (b :: rest)).2 = 1 ∧ (decodeRune (b :: rest)).1 = 0xFFFD))
    (h2 : ¬((decodeRune (b :: rest)).1 = 34 ∨ (decodeRune (b :: rest)).1 = 92))
    (h3 : ¬(isPrint (decodeRune (b :: rest)).1 = true))
    (h4 : (decodeRune (b :: rest)).1 = 7) :
    quoteBody isPrint (b :: rest) = 92 :: 97 :: quoteBody isPrint ((b :: rest).drop (decodeRune (b :: rest)).2) := by
  simp only [quoteBody]
  rw [if_neg h1, if_neg h2, if_neg h3, if_pos h4]

theorem quoteBody_eq_5 (isPrint : Nat → Bool) (b : Nat) (rest : List Nat)
    (h1 : ¬((decodeRune (b :: rest)).2 = 1 ∧ (decodeRune (b :: rest)).1 = 0xFFFD))
    (h2 : ¬((decodeRune (b :: rest)).1 = 34 ∨ (decodeRune (b :: rest)).1 = 92))
    (h3 : ¬(isPrint (decodeRune (b :: rest)).1 = true))
    (h4 : ¬((decodeRune (b :: rest)).1 = 7))
    (h5 : (decodeRune (b :: rest)).1 = 8) :
    quoteBody isPrint (b :: rest) = 92 :: 98 :: quoteBody isPrint ((b :: rest).drop (decodeRune (b :: rest)).2) := by
  simp only [quoteBody]
  rw [if_neg h1, if_neg h2, if_neg h3, if_neg h4, if_pos h5]

theorem quoteBody_eq_6 (isPrint : Nat → Bool) (b : Nat) (rest : List Nat)
    (h1 : ¬((decodeRune (b :: rest)).2 = 1 ∧ (decodeRune (b :: rest)).1 = 0xFFFD))
    (h2 : ¬((decodeRune (b :: rest)).1 = 34 ∨ (decodeRune (b :: rest)).1 = 92))
    (h3 : ¬(isPrint (decodeRune (b :: rest)).1 = true))
    (h4 : ¬((decodeRune (b :: rest)).1 = 7))
    (h5 : ¬((decodeRune (b :: rest)).1 = 8))
    (h6 : (decodeRune (b :: rest)).1 = 12) :
    quoteBody isPrint (b :: rest) = 92 :: 102 :: quoteBody isPrint ((b :: rest).drop (decodeRune (b :: rest)).2) := by
  simp only [quoteBody]
  rw [if_neg h1, if_neg h2, if_neg h3, if_neg h4, if_neg h5, if_pos h6]

theorem quoteBody_eq_7 (isPrint : Nat → Bool) (b : Nat) (rest : List Nat)
    (h1 : ¬((decodeRune (b :: rest)).2 = 1 ∧ (decodeRune (b :: rest)).1 = 0xFFFD))
    (h2 : ¬((decodeRune (b :: rest)).1 = 34 ∨ (decodeRune (b :: rest)).1 = 92))
    (h3 : ¬(isPrint (decodeRune (b :: rest)).1 = true))
    (h4 : ¬((decodeRune (b :: rest)).1 = 7))
    (h5 : ¬((decodeRune (b :: rest)).1 = 8))
    (h6 : ¬((decodeRune (b :: rest)).1 = 12))
    (h7 : (decodeRune (b :: rest)).1 = 10) :
    quoteBody isPrint (b :: rest) = 92 :: 110 :: quoteBody isPrint ((b :: rest).drop (decodeRune (b :: rest)).2) := by
  simp only [quoteBody]
  rw [if_neg h1, if_neg h2, if_neg h3, if_neg h4, if_neg h5, if_neg h6, if_pos h7]

theorem quoteBody_eq_8 (isPrint : Nat → Bool) (b : Nat) (rest : List Nat)
    (h1 : ¬((decodeRune (b :: rest)).2 = 1 ∧ (decodeRune (b :: rest)).1 = 0xFFFD))
    (h2 : ¬((decodeRune (b :: rest)).1 = 34 ∨ (decodeRune (b :: rest)).1 = 92))
    (h3 : ¬(isPrint (decodeRune (b :: rest)).1 = true))
    (h4 : ¬((decodeRune (b :: rest)).1 = 7))
    (h5 : ¬((decodeRune (b :: rest)).1 = 8))
    (h6 : ¬((decodeRune (b :: rest)).1 = 12))
    (h7 : ¬((decodeRune (b :: rest)).1 = 10))
    (h8 : (decodeRune (b :: rest)).1 = 13) :
    quoteBody isPrint (b :: rest) = 92 :: 114 :: quoteBody isPrint ((b :: rest).drop (decodeRune (b :: rest)).2) := by
  simp only [quoteBody]
  rw [if_neg h1, if_neg h2, if_neg h3, if_neg h4, if_neg h5, if_neg h6, if_neg h7, if_pos h8]

theorem quoteBody_eq_9 (isPrint : Nat → Bool) (b : Nat) (rest : List Nat)
    (h1 : ¬((decodeRune (b :: rest)).2 = 1 ∧ (decodeRune (b :: rest)).1 = 0xFFFD))
    (h2 : ¬((decodeRune (b :: rest)).1 = 34 ∨ (decodeRune (b :: rest)).1 = 92))
    (h3 : ¬(isPrint (decodeRune (b :: rest)).1 = true))
    (h4 : ¬((decodeRune (b :: rest)).1 = 7))
    (h5 : ¬((decodeRune (b :: rest)).1 = 8))
    (h6 : ¬((decodeRune (b :: rest)).1 = 12))
    (h7 : ¬((decodeRune (b :: rest)).1 = 10))
    (h8 : ¬((decodeRune (b :: rest)).1 = 13))
    (h9 : (decodeRune (b :: rest)).1 = 9) :
    quoteBody isPrint (b :: rest) = 92 :: 116 :: quoteBody isPrint ((b :: rest).drop (decodeRune (b :: rest)).2) := by
  simp only [quoteBody]
  rw [if_neg h1, if_neg h2, if_neg h3, if_neg h4, if_neg h5, if_neg h6, if_neg h7, if_neg h8, if_pos h9]

theorem quoteBody_eq_10 (isPrint : Nat → Bool) (b : Nat) (rest : List Nat)
    (h1 : ¬((decodeRune (b :: rest)).2 = 1 ∧ (decodeRune (b :: rest)).1 = 0xFFFD))
    (h2 : ¬((decodeRune (b :: rest)).1 = 34 ∨ (decodeRune (b :: rest)).1 = 92))
    (h3 : ¬(isPrint (decodeRune (b :: rest)).1 = true))
    (h4 : ¬((decodeRune (b :: rest)).1 = 7))
    (h5 : ¬((decodeRune (b :: rest)).1 = 8))
    (h6 : ¬((decodeRune (b :: rest)).1 = 12))
    (h7 : ¬((decodeRune (b :: rest)).1 = 10))
    (h8 : ¬((decodeRune (b :: rest)).1 = 13))
    (h9 : ¬((decodeRune (b :: rest)).1 = 9))
    (h10 : (decodeRune (b :: rest)).1 = 11) :
    quoteBody isPrint (b :: rest) = 92 :: 118 :: quoteBody isPrint ((b :: rest).drop (decodeRune (b :: rest)).2) := by
  simp only [quoteBody]
  rw [if_neg h1, if_neg h2, if_neg h3, if_neg h4, if_neg h5, if_neg h6, if_neg h7, if_neg h8, if_neg h9, if_pos h10]

theorem quoteBody_eq_11 (isPrint : Nat → Bool) (b : Nat) (rest : List Nat)
    (h1 : ¬((decodeRune (b :: rest)).2 = 1 ∧ (decodeRune (b :: rest)).1 = 0xFFFD))
    (h2 : ¬((decodeRune (b :: rest)).1 = 34 ∨ (decodeRune (b :: rest)).1 = 92))
    (h3 : ¬(isPrint (decodeRune (b :: rest)).1 = true))
    (h4 : ¬((decodeRune (b :: rest)).1 = 7))
    (h5 : ¬((decodeRune (b :: rest)).1 = 8))
    (h6 : ¬((decodeRune (b :: rest)).1 = 12))
    (h7 : ¬((decodeRune (b :: rest)).1 = 10))
    (h8 : ¬((decodeRune (b :: rest)).1 = 13))
    (h9 : ¬((decodeRune (b :: rest)).1 = 9))
    (h10 : ¬((decodeRune (b :: rest)).1 = 11))
    (h11 : (decodeRune (b :: rest)).1 < 32) :
    quoteBody isPrint (b :: rest) = 92 :: 120 :: hexChar (b / 16) :: hexChar (b % 16) :: quoteBody isPrint ((b :: rest).drop (decodeRune (b :: rest)).2) := by
  simp only [quoteBody]
  rw [if_neg h1, if_neg h2, if_neg h3, if_neg h4, if_neg h5, if_neg h6, if_neg h7, if_neg h8, if_neg h9, if_neg h10, if_pos h11]

theorem quoteBody_eq_12 (isPrint : Nat → Bool) (b : Nat) (rest : List Nat)
    (h1 : ¬((decodeRune (b :: rest)).2 = 1 ∧ (decodeRune (b :: rest)).1 = 0xFFFD))
    (h2 : ¬((decodeRune (b :: rest)).1 = 34 ∨ (decodeRune (b :: rest)).1 = 92))
    (h3 : ¬(isPrint (decodeRune (b :: rest)).1 = true))
    (h4 : ¬((decodeRune (b :: rest)).1 = 7))
    (h5 : ¬((decodeRune (b :: rest)).1 = 8))
    (h6 : ¬((decodeRune (b :: rest)).1 = 12))
    (h7 : ¬((decodeRune (b :: rest)).1 = 10))
    (h8 : ¬((decodeRune (b :: rest)).1 = 13))
    (h9 : ¬((decodeRune (b :: rest)).1 = 9))
    (h10 : ¬((decodeRune (b :: rest)).1 = 11))
    (h11 : ¬((decodeRune (b :: rest)).1 < 32))
    (h12 : 0x10FFFF < (decodeRune (b :: rest)).1) :
    quoteBody isPrint (b :: rest) = 92 :: 117 :: (hexDigits4 0xFFFD ++ quoteBody isPrint ((b :: rest).drop (decodeRune (b :: rest)).2)) := by
  simp only [quoteBody]
  rw [if_neg h1, if_neg h2, if_neg h3, if_neg h4, if_neg h5, if_neg h6, if_neg h7, if_neg h8, if_neg h9, if_neg h10, if_neg h11, if_pos h12]

theorem quoteBody_eq_13 (isPrint : Nat → Bool) (b : Nat) (rest : List Nat)
    (h1 : ¬((decodeRune (b :: rest)).2 = 1 ∧ (decodeRune (b :: rest)).1 = 0xFFFD))
    (h2 : ¬((decodeRune (b :: rest)).1 = 34 ∨ (decodeRune (b :: rest)).1 = 92))
    (h3 : ¬(isPrint (decodeRune (b :: rest)).1 = true))
    (h4 : ¬((decodeRune (b :: rest)).1 = 7))
    (h5 : ¬((decodeRune (b :: rest)).1 = 8))
    (h6 : ¬((decodeRune (b :: rest)).1 = 12))
    (h7 : ¬((decodeRune (b :: rest)).1 = 10))
    (h8 : ¬((decodeRune (b :: rest)).1 = 13))
    (h9 : ¬((decodeRune (b :: rest)).1 = 9))
    (h10 : ¬((decodeRune (b :: rest)).1 = 11))
    (h11 : ¬((decodeRune (b :: rest)).1 < 32))
    (h12 : ¬(0x10FFFF < (decodeRune (b :: rest)).1))
    (h13 : (decodeRune (b :: rest)).1 < 0x10000) :
    quoteBody isPrint (b :: rest) = 92 :: 117 :: (hexDigits4 (decodeRune (b :: rest)).1 ++ quoteBody isPrint ((b :: rest).drop (decodeRune (b :: rest)).2)) := by
  simp only [quoteBody]
  rw [if_neg h1, if_neg h2, if_neg h3, if_neg h4, if_neg h5, if_neg h6, if_neg h7, if_neg h8, if_neg h9, if_neg h10, if_neg h11, if_neg h12, if_pos h13]

theorem quoteBody_eq_14 (isPrint : Nat → Bool) (b : Nat) (rest : List Nat)
    (h1 : ¬((decodeRune (b :: rest)).2 = 1 ∧ (decodeRune (b :: rest)).1 = 0xFFFD))
    (h2 : ¬((decodeRune (b :: rest)).1 = 34 ∨ (decodeRune (b :: rest)).1 = 92))
    (h3 : ¬(isPrint (decodeRune (b :: rest)).1 = true))
    (h4 : ¬((decodeRune (b :: rest)).1 = 7))
    (h5 : ¬((decodeRune (b :: rest)).1 = 8))
    (h6 : ¬((decodeRune (b :: rest)).1 = 12))
    (h7 : ¬((decodeRune (b :: rest)).1 = 10))
    (h8 : ¬((decodeRune (b :: rest)).1 = 13))
    (h9 : ¬((decodeRune (b :: rest)).1 = 9))
    (h10 : ¬((decodeRune (b :: rest)).1 = 11))
    (h11 : ¬((decodeRune (b :: rest)).1 < 32))
    (h12 : ¬(0x10FFFF < (decodeRune (b :: rest)).1))
    (h13 : ¬((decodeRune (b :: rest)).1 < 0x10000)) :
    quoteBody isPrint (b :: rest) = 92 :: 85 :: (hexDigits8 (decodeRune (b :: rest)).1 ++ quoteBody isPrint ((b :: rest).drop (decodeRune (b :: rest)).2)) := by
  simp only [quoteBody]
  rw [if_neg h1, if_neg h2, if_neg h3, if_neg h4, if_neg h5, if_neg h6, if_neg h7, if_neg h8, if_neg h9, if_neg h10, if_neg h11, if_neg h12, if_neg h13]

theorem unquoteChar_mb2 (c r w : Nat) (rec : List Nat) (h1 : 0x80 ≤ c)
    (hd : decodeRune (c :: rec) = (r, w)) :
    unquoteChar (c :: rec) = some (r, true, (c :: rec).drop w) := by
  rw [unquoteChar, if_neg (by omega), if_pos h1, hd]

theorem quoteBody_no_specials (isPrint : Nat → Bool) (hp : isPrint 10 = false) :
    ∀ s : List Nat, ¬34 ∈ s → ¬34 ∈ quoteBody isPrint s ∧ ¬10 ∈ quoteBody isPrint s := by
  intro s
  induction s using quoteBody.induct isPrint with
  | case1 =>
    intro _
    simp [quoteBody]
  | case2 b rest h1 ih =>
    intro hq
    obtain ⟨ih34, ih10⟩ := ih (fun hx => hq (List.mem_of_mem_drop hx))
    rw [quoteBody_eq_1 isPrint b rest h1]
    have g1 := hexChar_ge (b / 16)
    have g2 := hexChar_ge (b % 16)
    simp only [List.mem_cons]
    refine ⟨?_, ?_⟩ <;>
      · rintro (h | h | h | h | h) <;>
          first
            | omega
            | exact ih34 h
            | exact ih10 h
  | case3 b rest h1 h2 ih =>
    intro hq
    obtain ⟨ih34, ih10⟩ := ih (fun hx => hq (List.mem_of_mem_drop hx))
    rw [quoteBody_eq_2 isPrint b rest h1 h2]
    have ha := rune_ascii b rest (by omega) h1
    have hb34 : ¬b = 34 := fun he => hq (by rw [he]; exact List.mem_cons_self _ _)
    simp only [List.mem_cons]
    refine ⟨?_, ?_⟩ <;>
      · rintro (h | h | h) <;>
          first
            | omega
            | exact ih34 h
            | exact ih10 h
  | case4 b rest h1 h2 h3 ih =>
    intro hq
    obtain ⟨ih34, ih10⟩ := ih (fun hx => hq (List.mem_of_mem_drop hx))
    rw [quoteBody_eq_3 isPrint b rest h1 h2 h3]
    refine ⟨fun hm => ?_, fun hm => ?_⟩
    · rcases List.mem_append.1 hm with h | h
      · have hme := encodeRune_mem _ _ h
        omega
      · exact ih34 h
    · rcases List.mem_append.1 hm with h | h
      · have hme := encodeRune_mem _ _ h
        have hp1 : (decodeRune (b :: rest)).1 = 10 := by omega
        rw [hp1, hp] at h3
        cases h3
      · exact ih10 h
  | case5 b rest h1 h2 h3 h4 ih =>
    intro hq
    obtain ⟨ih34, ih10⟩ := ih (fun hx => hq (List.mem_of_mem_drop hx))
    rw [quoteBody_eq_4 isPrint b rest h1 h2 h3 h4]
    simp only [List.mem_cons]
    refine ⟨?_, ?_⟩ <;>
      · rintro (h | h | h) <;>
          first
            | omega
            | exact ih34 h
            | exact ih10 h
  | case6 b rest h1 h2 h3 h4 h5 ih =>
    intro hq
    obtain ⟨ih34, ih10⟩ := ih (fun hx => hq (List.mem_of_mem_drop hx))
    rw [quoteBody_eq_5 isPrint b rest h1 h2 h3 h4 h5]
    simp only [List.mem_cons]
    refine ⟨?_, ?_⟩ <;>
      · rintro (h | h | h) <;>
          first
            | omega
            | exact ih34 h
            | exact ih10 h
  | case7 b rest h1 h2 h3 h4 h5 h6 ih =>
    intro hq
    obtain ⟨ih34, ih10⟩ := ih (fun hx => hq (List.mem_of_mem_drop hx))
    rw [quoteBody_eq_6 isPrint b rest h1 h2 h3 h4 h5 h6]
    simp only [List.mem_cons]
    refine ⟨?_, ?_⟩ <;>
      · rintro (h | h | h) <;>
          first
            | omega
            | exact ih34 h
            | exact ih10 h
  | case8 b rest h1 h2 h3 h4 h5 h6 h7 ih =>
    intro hq
    obtain ⟨ih34, ih10⟩ := ih (fun hx => hq (List.mem_of_mem_drop hx))
    rw [quoteBody_eq_7 isPrint b rest h1 h2 h3 h4 h5 h6 h7]
    simp only [List.mem_cons]
    refine ⟨?_, ?_⟩ <;>
      · rintro (h | h | h) <;>
          first
            | omega
            | exact ih34 h
            | exact ih10 h
  | case9 b rest h1 h2 h3 h4 h5 h6 h7 h8 ih =>
    intro hq
    obtain ⟨ih34, ih10⟩ := ih (fun hx => hq (List.mem_of_mem_drop hx))
    rw [quoteBody_eq_8 isPrint b rest h1 h2 h3 h4 h5 h6 h7 h8]
    simp only [List.mem_cons]
    refine ⟨?_, ?_⟩ <;>
      · rintro (h | h | h) <;>
          first
            | omega
            | exact ih34 h
            | exact ih10 h
  | case10 b rest h1 h2 h3 h4 h5 h6 h7 h8 h9 ih =>
    intro hq
    obtain ⟨ih34, ih10⟩ := ih (fun hx => hq (List.mem_of_mem_drop hx))
    rw [quoteBody_eq_9 isPrint b rest h1 h2 h3 h4 h5 h6 h7 h8 h9]
    simp only [List.mem_cons]
    refine ⟨?_, ?_⟩ <;>
      · rintro (h | h | h) <;>
          first
            | omega
            | exact ih34 h
            | exact ih10 h
  | case11 b rest h1 h2 h3 h4 h5 h6 h7 h8 h9 h10 ih =>
    intro hq
    obtain ⟨ih34, ih10⟩ := ih (fun hx => hq (List.mem_of_mem_drop hx))
    rw [quoteBody_eq_10 isPrint b rest h1 h2 h3 h4 h5 h6 h7 h8 h9 h10]
    simp only [List.mem_cons]
    refine ⟨?_, ?_⟩ <;>
      · rintro (h | h | h) <;>
          first
            | omega
            | exact ih34 h
            | exact ih10 h
  | case12 b rest h1 h2 h3 h4 h5 h6 h7 h8 h9 h10 h11 ih =>
    intro hq
    obtain ⟨ih34, ih10⟩ := ih (fun hx => hq (List.mem_of_mem_drop hx))
    rw [quoteBody_eq_11 isPrint b rest h1 h2 h3 h4 h5 h6 h7 h8 h9 h10 h11]
    have g1 := hexChar_ge (b / 16)
    have g2 := hexChar_ge (b % 16)
    simp only [List.mem_cons]
    refine ⟨?_, ?_⟩ <;>
      · rintro (h | h | h | h | h) <;>
          first
            | omega
            | exact ih34 h
            | exact ih10 h
  | case13 b rest h1 h2 h3 h4 h5 h6 h7 h8 h9 h10 h11 h12 ih =>
    intro hq
    obtain ⟨ih34, ih10⟩ := ih (fun hx => hq (List.mem_of_mem_drop hx))
    rw [quoteBody_eq_12 isPrint b rest h1 h2 h3 h4 h5 h6 h7 h8 h9 h10 h11 h12]
    have hd := hexDigits4_ge 0xFFFD
    simp only [List.mem_cons, List.mem_append]
    refine ⟨?_, ?_⟩ <;>
      · rintro (h | h | h | h) <;>
          first
            | omega
            | (have hg := hd _ h; omega)
            | exact ih34 h
            | exact ih10 h
  | case14 b rest h1 h2 h3 h4 h5 h6 h7 h8 h9 h10 h11 h12 h13 ih =>
    intro hq
    obtain ⟨ih34, ih10⟩ := ih (fun hx => hq (List.mem_of_mem_drop hx))
    rw [quoteBody_eq_13 isPrint b rest h1 h2 h3 h4 h5 h6 h7 h8 h9 h10 h11 h12 h13]
    have hd := hexDigits4_ge (decodeRune (b :: rest)).1
    simp only [List.mem_cons, List.mem_append]
    refine ⟨?_, ?_⟩ <;>
      · rintro (h | h | h | h) <;>
          first
            | omega
            | (have hg := hd _ h; omega)
            | exact ih34 h
            | exact ih10 h
  | case15 b rest h1 h2 h3 h4 h5 h6 h7 h8 h9 h10 h11 h12 h13 ih =>
    intro hq
    obtain ⟨ih34, ih10⟩ := ih (fun hx => hq (List.mem_of_mem_drop hx))
    rw [quoteBody_eq_14 isPrint b rest h1 h2 h3 h4 h5 h6 h7 h8 h9 h10 h11 h12 h13]
    have hd := hexDigits8_ge (decodeRune (b :: rest)).1
    simp only [List.mem_cons, List.mem_append]
    refine ⟨?_, ?_⟩ <;>
      · rintro (h | h | h | h) <;>
          first
            | omega
            | (have hg := hd _ h; omega)
            | exact ih34 h
            | exact ih10 h

theorem quoteBody_no_backslash_id (isPrint : Nat → Bool) :
    ∀ s : List Nat, ¬92 ∈ quoteBody isPrint s → quoteBody isPrint s = s := by
  intro s
  induction s using quoteBody.induct isPrint with
  | case1 =>
    intro _
    simp [quoteBody]
  | case2 b rest h1 ih =>
    intro h92
    rw [quoteBody_eq_1 isPrint b rest h1] at h92
    exact absurd (List.mem_cons_self _ _) h92
  | case3 b rest h1 h2 ih =>
    intro h92
    rw [quoteBody_eq_2 isPrint b rest h1 h2] at h92
    exact absurd (List.mem_cons_self _ _) h92
  | case4 b rest h1 h2 h3 ih =>
    intro h92
    rw [quoteBody_eq_3 isPrint b rest h1 h2 h3] at h92 ⊢
    have h92r : ¬92 ∈ quoteBody isPrint ((b :: rest).drop (decodeRune (b :: rest)).2) :=
      fun hx => h92 (List.mem_append.2 (Or.inr hx))
    rw [ih h92r]
    rcases rune_cases b rest h1 with ⟨hb, hw, hlt⟩ | ⟨hw2, hge, hle, hb0, hwlen, henc, hstab⟩
    · rw [hb, hw, encodeRune, if_pos (by omega)]
      simp
    · rw [henc, List.take_append_drop]
  | case5 b rest h1 h2 h3 h4 ih =>
    intro h92
    rw [quoteBody_eq_4 isPrint b rest h1 h2 h3 h4] at h92
    exact absurd (List.mem_cons_self _ _) h92
  | case6 b rest h1 h2 h3 h4 h5 ih =>
    intro h92
    rw [quoteBody_eq_5 isPrint b rest h1 h2 h3 h4 h5] at h92
    exact absurd (List.mem_cons_self _ _) h92
  | case7 b rest h1 h2 h3 h4 h5 h6 ih =>
    intro h92
    rw [quoteBody_eq_6 isPrint b rest h1 h2 h3 h4 h5 h6] at h92
    exact absurd (List.mem_cons_self _ _) h92
  | case8 b rest h1 h2 h3 h4 h5 h6 h7 ih =>
    intro h92
    rw [quoteBody_eq_7 isPrint b rest h1 h2 h3 h4 h5 h6 h7] at h92
    exact absurd (List.mem_cons_self _ _) h92
  | case9 b rest h1 h2 h3 h4 h5 h6 h7 h8 ih =>
    intro h92
    rw [quoteBody_eq_8 isPrint b rest h1 h2 h3 h4 h5 h6 h7 h8] at h92
    exact absurd (List.mem_cons_self _ _) h92
  | case10 b rest h1 h2 h3 h4 h5 h6 h7 h8 h9 ih =>
    intro h92
    rw [quoteBody_eq_9 isPrint b rest h1 h2 h3 h4 h5 h6 h7 h8 h9] at h92
    exact absurd (List.mem_cons_self _ _) h92
  | case11 b rest h1 h2 h3 h4 h5 h6 h7 h8 h9 h10 ih =>
    intro h92
    rw [quoteBody_eq_10 isPrint b rest h1 h2 h3 h4 h5 h6 h7 h8 h9 h10] at h92
    exact absurd (List.mem_cons_self _ _) h92
  | case12 b rest h1 h2 h3 h4 h5 h6 h7 h8 h9 h10 h11 ih =>
    intro h92
    rw [quoteBody_eq_11 isPrint b rest h1 h2 h3 h4 h5 h6 h7 h8 h9 h10 h11] at h92
    exact absurd (List.mem_cons_self _ _) h92
  | case13 b rest h1 h2 h3 h4 h5 h6 h7 h8 h9 h10 h11 h12 ih =>
    intro h92
    rw [quoteBody_eq_12 isPrint b rest h1 h2 h3 h4 h5 h6 h7 h8 h9 h10 h11 h12] at h92
    exact absurd (List.mem_cons_self _ _) h92
  | case14 b rest h1 h2 h3 h4 h5 h6 h7 h8 h9 h10 h11 h12 h13 ih =>
    intro h92
    rw [quoteBody_eq_13 isPrint b rest h1 h2 h3 h4 h5 h6 h7 h8 h9 h10 h11 h12 h13] at h92
    exact absurd (List.mem_cons_self _ _) h92
  | case15 b rest h1 h2 h3 h4 h5 h6 h7 h8 h9 h10 h11 h12 h13 ih =>
    intro h92
    rw [quoteBody_eq_14 isPrint b rest h1 h2 h3 h4 h5 h6 h7 h8 h9 h10 h11 h12 h13] at h92
    exact absurd (List.mem_cons_self _ _) h92

theorem unquoteLoop_quoteBody (isPrint : Nat → Bool) :
    ∀ s : List Nat, (∀ x ∈ s, x < 256) → unquoteLoop (quoteBody isPrint s) = some s := by
  intro s
  induction s using quoteBody.induct isPrint with
  | case1 =>
    intro _
    simp [quoteBody, unquoteLoop]
  | case2 b rest h1 ih =>
    intro hb2
    have ihv := ih (fun x hx => hb2 x (List.mem_of_mem_drop hx))
    rw [quoteBody_eq_1 isPrint b rest h1]
    have hchar := unquoteChar_hex b
      (quoteBody isPrint ((b :: rest).drop (decodeRune (b :: rest)).2))
      (hb2 b (List.mem_cons_self _ _))
    rw [unquoteLoop_cons _ _ _ _ _ hchar, ihv]
    simp [h1.1]
  | case3 b rest h1 h2 ih =>
    intro hb2
    have ihv := ih (fun x hx => hb2 x (List.mem_of_mem_drop hx))
    rw [quoteBody_eq_2 isPrint b rest h1 h2]
    have ha := rune_ascii b rest (by omega) h1
    have he : escSimple (decodeRune (b :: rest)).1 = some (decodeRune (b :: rest)).1 := by
      rcases h2 with h | h <;> (rw [h]; decide)
    have hchar := unquoteChar_esc _ _
      (quoteBody isPrint ((b :: rest).drop (decodeRune (b :: rest)).2)) he
    rw [unquoteLoop_cons _ _ _ _ _ hchar, ihv]
    simp [ha.1, ha.2.1]
  | case4 b rest h1 h2 h3 ih =>
    intro hb2
    have ihv := ih (fun x hx => hb2 x (List.mem_of_mem_drop hx))
    rw [quoteBody_eq_3 isPrint b rest h1 h2 h3]
    rcases rune_cases b rest h1 with ⟨hb, hw, hlt⟩ | ⟨hw2, hge, hle, hb0, hwlen, henc, hstab⟩
    · rw [hw] at ihv
      rw [hb, hw, encodeRune, if_pos (by omega), List.singleton_append]
      have hchar := unquoteChar_plain b (quoteBody isPrint ((b :: rest).drop 1))
        (by omega) (by omega) (by omega)
      rw [unquoteLoop_cons _ _ _ _ _ hchar, ihv]
      simp [hlt]
    · rw [henc]
      obtain ⟨w1, hw1⟩ : ∃ w1, (decodeRune (b :: rest)).2 = w1 + 1 :=
        ⟨(decodeRune (b :: rest)).2 - 1, by omega⟩
      rw [hw1] at ihv hwlen henc ⊢
      simp only [hw1] at hstab
      rw [List.take_succ_cons, List.cons_append]
      have hst := hstab (quoteBody isPrint ((b :: rest).drop (w1 + 1)))
      rw [List.take_succ_cons, List.cons_append] at hst
      have hchar := unquoteChar_mb2 b (decodeRune (b :: rest)).1 (w1 + 1)
        (List.take w1 rest ++ quoteBody isPrint ((b :: rest).drop (w1 + 1)))
        (by omega) hst
      have hlen : (List.take w1 rest).length = w1 := by
        rw [List.length_take]
        simp only [List.length_cons] at hwlen
        omega
      have hdrop : List.drop (w1 + 1)
          (b :: (List.take w1 rest ++ quoteBody isPrint ((b :: rest).drop (w1 + 1)))) =
          quoteBody isPrint ((b :: rest).drop (w1 + 1)) := by
        rw [List.drop_succ_cons, List.drop_left' hlen]
      rw [hdrop] at hchar
      rw [unquoteLoop_cons _ _ _ _ _ hchar, ihv]
      have hnlt : ¬(decodeRune (b :: rest)).1 < 0x80 := by omega
      simp [hnlt, henc, List.take_append_drop]
  | case5 b rest h1 h2 h3 h4 ih =>
    intro hb2
    have ihv := ih (fun x hx => hb2 x (List.mem_of_mem_drop hx))
    rw [quoteBody_eq_4 isPrint b rest h1 h2 h3 h4]
    have ha := rune_ascii b rest (by omega) h1
    have hchar := unquoteChar_esc 97 7
      (quoteBody isPrint ((b :: rest).drop (decodeRune (b :: rest)).2)) (by decide)
    rw [unquoteLoop_cons _ _ _ _ _ hchar, ihv]
    have hbv : b = 7 := by omega
    rw [ha.2.1]
    simp [hbv]
  | case6 b rest h1 h2 h3 h4 h5 ih =>
    intro hb2
    have ihv := ih (fun x hx => hb2 x (List.mem_of_mem_drop hx))
    rw [quoteBody_eq_5 isPrint b rest h1 h2 h3 h4 h5]
    have ha := rune_ascii b rest (by omega) h1
    have hchar := unquoteChar_esc 98 8
      (quoteBody isPrint ((b :: rest).drop (decodeRune (b :: rest)).2)) (by decide)
    rw [unquoteLoop_cons _ _ _ _ _ hchar, ihv]
    have hbv : b = 8 := by omega
    rw [ha.2.1]
    simp [hbv]
  | case7 b rest h1 h2 h3 h4 h5 h6 ih =>
    intro hb2
    have ihv := ih (fun x hx => hb2 x (List.mem_of_mem_drop hx))
    rw [quoteBody_eq_6 isPrint b rest h1 h2 h3 h4 h5 h6]
    have ha := rune_ascii b rest (by omega) h1
    have hchar := unquoteChar_esc 102 12
      (quoteBody isPrint ((b :: rest).drop (decodeRune (b :: rest)).2)) (by decide)
    rw [unquoteLoop_cons _ _ _ _ _ hchar, ihv]
    have hbv : b = 12 := by omega
    rw [ha.2.1]
    simp [hbv]
  | case8 b rest h1 h2 h3 h4 h5 h6 h7 ih =>
    intro hb2
    have ihv := ih (fun x hx => hb2 x (List.mem_of_mem_drop hx))
    rw [quoteBody_eq_7 isPrint b rest h1 h2 h3 h4 h5 h6 h7]
    have ha := rune_ascii b rest (by omega) h1
    have hchar := unquoteChar_esc 110 10
      (quoteBody isPrint ((b :: rest).drop (decodeRune (b :: rest)).2)) (by decide)
    rw [unquoteLoop_cons _ _ _ _ _ hchar, ihv]
    have hbv : b = 10 := by omega
    rw [ha.2.1]
    simp [hbv]
  | case9 b rest h1 h2 h3 h4 h5 h6 h7 h8 ih =>
    intro hb2
    have ihv := ih (fun x hx => hb2 x (List.mem_of_mem_drop hx))
    rw [quoteBody_eq_8 isPrint b rest h1 h2 h3 h4 h5 h6 h7 h8]
    have ha := rune_ascii b rest (by omega) h1
    have hchar := unquoteChar_esc 114 13
      (quoteBody isPrint ((b :: rest).drop (decodeRune (b :: rest)).2)) (by decide)
    rw [unquoteLoop_cons _ _ _ _ _ hchar, ihv]
    have hbv : b = 13 := by omega
    rw [ha.2.1]
    simp [hbv]
  | case10 b rest h1 h2 h3 h4 h5 h6 h7 h8 h9 ih =>
    intro hb2
    have ihv := ih (fun x hx => hb2 x (List.mem_of_mem_drop hx))
    rw [quoteBody_eq_9 isPrint b rest h1 h2 h3 h4 h5 h6 h7 h8 h9]
    have ha := rune_ascii b rest (by omega) h1
    have hchar := unquoteChar_esc 116 9
      (quoteBody isPrint ((b :: rest).drop (decodeRune (b :: rest)).2)) (by decide)
    rw [unquoteLoop_cons _ _ _ _ _ hchar, ihv]
    have hbv : b = 9 := by omega
    rw [ha.2.1]
    simp [hbv]
  | case11 b rest h1 h2 h3 h4 h5 h6 h7 h8 h9 h10 ih =>
    intro hb2
    have ihv := ih (fun x hx => hb2 x (List.mem_of_mem_drop hx))
    rw [quoteBody_eq_10 isPrint b rest h1 h2 h3 h4 h5 h6 h7 h8 h9 h10]
    have ha := rune_ascii b rest (by omega) h1
    have hchar := unquoteChar_esc 118 11
      (quoteBody isPrint ((b :: rest).drop (decodeRune (b :: rest)).2)) (by decide)
    rw [unquoteLoop_cons _ _ _ _ _ hchar, ihv]
    have hbv : b = 11 := by omega
    rw [ha.2.1]
    simp [hbv]
  | case12 b rest h1 h2 h3 h4 h5 h6 h7 h8 h9 h10 h11 ih =>
    intro hb2
    have ihv := ih (fun x hx => hb2 x (List.mem_of_mem_drop hx))
    rw [quoteBody_eq_11 isPrint b rest h1 h2 h3 h4 h5 h6 h7 h8 h9 h10 h11]
    have ha := rune_ascii b rest (by omega) h1
    have hchar := unquoteChar_hex b
      (quoteBody isPrint ((b :: rest).drop (decodeRune (b :: rest)).2))
      (hb2 b (List.mem_cons_self _ _))
    rw [unquoteLoop_cons _ _ _ _ _ hchar, ihv]
    simp [ha.2.1]
  | case13 b rest h1 h2 h3 h4 h5 h6 h7 h8 h9 h10 h11 h12 ih =>
    intro hb2
    exact absurd (decodeRune_r_le (b :: rest)) (by omega)
  | case14 b rest h1 h2 h3 h4 h5 h6 h7 h8 h9 h10 h11 h12 h13 ih =>
    intro hb2
    have ihv := ih (fun x hx => hb2 x (List.mem_of_mem_drop hx))
    rw [quoteBody_eq_13 isPrint b rest h1 h2 h3 h4 h5 h6 h7 h8 h9 h10 h11 h12 h13]
    have hchar := unquoteChar_u (decodeRune (b :: rest)).1
      (quoteBody isPrint ((b :: rest).drop (decodeRune (b :: rest)).2)) h13
    rw [unquoteLoop_cons _ _ _ _ _ hchar, ihv]
    rcases rune_cases b rest h1 with ⟨hb, hw, hlt⟩ | ⟨hw2, hge, hle, hb0, hwlen, henc, hstab⟩
    · simp [hb, hw, hlt]
    · have hnlt : ¬(decodeRune (b :: rest)).1 < 0x80 := by omega
      simp [hnlt, henc, List.take_append_drop]
  | case15 b rest h1 h2 h3 h4 h5 h6 h7 h8 h9 h10 h11 h12 h13 ih =>
    intro hb2
    have ihv := ih (fun x hx => hb2 x (List.mem_of_mem_drop hx))
    rw [quoteBody_eq_14 isPrint b rest h1 h2 h3 h4 h5 h6 h7 h8 h9 h10 h11 h12 h13]
    have hchar := unquoteChar_U (decodeRune (b :: rest)).1
      (quoteBody isPrint ((b :: rest).drop (decodeRune (b :: rest)).2))
      (decodeRune_r_le (b :: rest))
    rw [unquoteLoop_cons _ _ _ _ _ hchar, ihv]
    rcases rune_cases b rest h1 with ⟨hb, hw, hlt⟩ | ⟨hw2, hge, hle, hb0, hwlen, henc, hstab⟩
    · exact absurd hlt (by omega)
    · have hnlt : ¬(decodeRune (b :: rest)).1 < 0x80 := by omega
      simp [hnlt, henc, List.take_append_drop]

theorem findIdx_byte (x : Nat) (u v : List Nat) (hu : ¬x ∈ u) :
    ∀ k, List.findIdx? (fun c => c = x) (u ++ x :: v) k = some (u.length + k) := by
  induction u with
  | nil =>
    intro k
    rw [List.nil_append, List.findIdx?_cons]
    simp
  | cons a u ih =>
    intro k
    rw [List.cons_append, List.findIdx?_cons]
    have hax : ¬a = x := fun he => hu (List.mem_cons.2 (Or.inl he.symm))
    rw [if_neg (by simp [hax])]
    rw [ih (fun hm => hu (List.mem_cons.2 (Or.inr hm))) (k + 1)]
    simp only [List.length_cons]
    exact congrArg some (by omega)

theorem parseValue_quoted (body tail : List Nat) (hq : ¬34 ∈ body) :
    parseValue (34 :: (body ++ 34 :: tail)) = (body.length + 2, 34 :: (body ++ [34])) := by
  have hf := findIdx_byte 34 body tail hq 0
  rw [Nat.add_zero] at hf
  rw [parseValue, if_pos rfl, hf]
  show (body.length + 2, (34 :: (body ++ 34 :: tail)).take (body.length + 2)) =
    (body.length + 2, 34 :: (body ++ [34]))
  congr 1
  have h2 : body.length + 2 = (body.length + 1) + 1 := by omega
  rw [h2, List.take_succ_cons, List.take_append_eq_append_take,
    List.take_of_length_le (by omega)]
  have h3 : body.length + 1 - body.length = 1 := by omega
  rw [h3]
  rfl

theorem unquote_token (isPrint : Nat → Bool) (s : List Nat)
    (hp : isPrint 10 = false) (hq : ¬34 ∈ s) (hb : ∀ x ∈ s, x < 256) :
    unquote (34 :: (quoteBody isPrint s ++ [34])) = some s := by
  obtain ⟨h34, h10⟩ := quoteBody_no_specials isPrint hp s hq
  have hlen : (34 :: (quoteBody isPrint s ++ [34])).length =
      (quoteBody isPrint s).length + 2 := by
    simp
  have hg : (34 :: (quoteBody isPrint s ++ [34])).getLast? = some 34 := by
    rw [show (34 :: (quoteBody isPrint s ++ [34])) =
      (34 :: quoteBody isPrint s) ++ [34] by simp, List.getLast?_concat]
  have hbody : ((34 :: (quoteBody isPrint s ++ [34])).drop 1).dropLast =
      quoteBody isPrint s := by
    simp [List.dropLast_concat]
  rw [unquote, if_neg (by rw [hlen]; omega), if_neg (by simp [hg]), if_neg (by simp),
    hbody, if_neg h10]
  by_cases h92 : 92 ∈ quoteBody isPrint s
  · rw [if_neg (fun hc => hc.1 h92)]
    exact unquoteLoop_quoteBody isPrint s hb
  · rw [if_pos ⟨h92, h34⟩]
    rw [quoteBody_no_backslash_id isPrint s h92]

/-- C1: quoted-mode round trip.  For any string `s` — including control
characters, non-ASCII runes and invalid UTF-8, but (amended) NOT containing a
double-quote byte — the token `appendQuoteString` emits is recovered whole by
the read side's `parseValue` boundary scan, with any following bytes left
alone, and `strconv.Unquote` (as called by `Data.GetString`) restores exactly
`s`.  The `isPrint` classifier is abstract; only `IsPrint('\n') = false`
(true of the real Unicode tables) is needed. -/
theorem quoted_value_roundtrip (isPrint : Nat → Bool) (s tail : List Nat)
    (hp : isPrint 10 = false) (hq : ¬34 ∈ s) (hb : ∀ x ∈ s, x < 256) :
    parseValue (appendQuoteString isPrint s ++ tail) =
      ((appendQuoteString isPrint s).length, appendQuoteString isPrint s) ∧
      unquote (appendQuoteString isPrint s) = some s := by
  obtain ⟨h34, h10⟩ := quoteBody_no_specials isPrint hp s hq
  constructor
  · have hpv := parseValue_quoted (quoteBody isPrint s) tail h34
    have he : appendQuoteString isPrint s ++ tail =
        34 :: (quoteBody isPrint s ++ 34 :: tail) := by
      simp [appendQuoteString]
    rw [he, hpv]
    have hl : (appendQuoteString isPrint s).length = (quoteBody isPrint s).length + 2 := by
      simp [appendQuoteString]
    rw [hl, appendQuoteString]
  · rw [appendQuoteString]
    exact unquote_token isPrint s hp hq hb

theorem quoted_value_roundtrip_witness :
    ((fun _ : Nat => false) 10 = false) ∧ ¬34 ∈ [104, 10, 233] ∧
      (∀ x ∈ [104, 10, 233], x < 256) ∧
      (parseValue (appendQuoteString (fun _ => false) [104, 10, 233] ++ []) =
        ((appendQuoteString (fun _ => false) [104, 10, 233]).length,
          appendQuoteString (fun _ => false) [104, 10, 233]) ∧
        unquote (appendQuoteString (fun _ => false) [104, 10, 233]) =
          some [104, 10, 233]) :=
  ⟨rfl, by decide, by decide,
    quoted_value_roundtrip (fun _ => false) [104, 10, 233] [] rfl (by decide) (by decide)⟩

/-- C1 counterexample: for `s = "\""` (a lone double quote) the claim fails.
`appendQuoteString` emits `"\""` (bytes 34 92 34 34), but `parseValue` stops
at the first interior `"` byte — the one inside the escape — returning the
truncated token `"\` (34 92 34), and `strconv.Unquote` rejects that token, so
the round trip does not return `s`. -/
theorem quoted_value_fails_on_quote :
    appendQuoteString (fun _ => true) [34] = [34, 92, 34, 34] ∧
    parseValue (appendQuoteString (fun _ => true) [34] ++ [32]) = (3, [34, 92, 34]) ∧
    unquote [34, 92, 34] = none := by
  have h1 : appendQuoteString (fun _ => true) [34] = [34, 92, 34, 34] := by
    simp [appendQuoteString, quoteBody, decodeRune]
  refine ⟨h1, ?_, ?_⟩
  · rw [h1]
    decide
  · simp [unquote, unquoteLoop, unquoteChar, unquoteEsc]

/-- Decimal digits of a natural number, most significant first (empty for 0):
the digit loop of the integer append path. -/
def natDigits : Nat → List Nat
  | 0 => []
  | n + 1 => natDigits ((n + 1) / 10) ++ [48 + (n + 1) % 10]
termination_by n => n
decreasing_by
  exact Nat.div_lt_self (Nat.succ_pos n) (by omega)

/-- `strconv.AppendInt` in base 10: sign, then digits (`"0"` for zero). -/
def intDec (n : Int) : List Nat :=
  if n < 0 then 45 :: natDigits n.natAbs
  else if n = 0 then [48]
  else natDigits n.natAbs

/-- Faithful model of `buffer.appendEscapeByte` (base.go): a newline becomes
`"\n      "` (newline plus the six-space continuation prefix); every other
byte is copied. -/
def appendEscapeByteA (buf : List Nat) (c : Nat) : List Nat :=
  if c = 10 then buf ++ [10, 32, 32, 32, 32, 32, 32]
  else buf ++ [c]

/-- `buffer.appendEscapeString`: the byte-wise loop. -/
def appendEscapeStringA (buf : List Nat) (s : List Nat) : List Nat :=
  s.foldl appendEscapeByteA buf

/-- Faithful model of `buffer.appendDataValue` (base.go): returns the new
buffer and whether a value was written.  Strings, errors and Stringers are
quoted; a Hook is evaluated — nil yields `false` with the buffer unchanged,
otherwise the yielded value is encoded recursively. -/
def appendDataValueB (isPrint : Nat → Bool) (buf : List Nat) : GoVal → List Nat × Bool
  | .str s => (buf ++ appendQuoteString isPrint s, true)
  | .errVal s => (buf ++ appendQuoteString isPrint s, true)
  | .intVal n => (buf ++ intDec n, true)
  | .boolVal b => (buf ++ (if b then [116, 114, 117, 101] else [102, 97, 108, 115, 101]), true)
  | .hookNil => (buf, false)
  | .hookVal v => appendDataValueB isPrint buf v

/-- The pair loop of `buffer.appendData` (base.go): each pair appends
`' ' key '='` and its value; if `appendDataValue` reports nothing written the
buffer is rolled back to before the pair, otherwise `written` is set. -/
def appendDataPairs (isPrint : Nat → Bool) (buf : List Nat) (written : Bool) :
    DataList → List Nat × Bool
  | [] => (buf, written)
  | (k, v) :: rest =>
    match appendDataValueB isPrint (buf ++ 32 :: (k ++ [61])) v with
    | (buf2, true) => appendDataPairs isPrint buf2 true rest
    | (_, false) => appendDataPairs isPrint buf written rest

/-- Faithful model of `buffer.appendData` (base.go): nothing for empty data;
otherwise `"\t|"` then the pair loop, rolling the whole section back when no
pair was written. -/
def appendDataB (isPrint : Nat → Bool) (buf : List Nat) (data : DataList) : List Nat :=
  if data = [] then buf
  else
    match appendDataPairs isPrint (buf ++ [9, 124]) false data with
    | (buf2, true) => buf2
    | (_, false) => buf

/-- Faithful model of `printMessage` (the wire format): type tag, a space,
the escaped content, the data section, a newline. -/
def printMessage (isPrint : Nat → Bool) (msg : Message) : List Nat :=
  appendDataB isPrint (appendEscapeStringA (typeBytes msg.type ++ [32]) msg.content)
    msg.data ++ [10]

/-- The literal `\x7b"timestamp": "` of `WriteJSONTo`. -/
def jsonHeadA : List Nat :=
  [123, 34, 116, 105, 109, 101, 115, 116, 97, 109, 112, 34, 58, 32, 34]

/-- The literal `", "type": "`. -/
def jsonHeadB : List Nat := [34, 44, 32, 34, 116, 121, 112, 101, 34, 58, 32, 34]

/-- The literal `", "content": `. -/
def jsonHeadC : List Nat := [34, 44, 32, 34, 99, 111, 110, 116, 101, 110, 116, 34, 58, 32]

/-- `strings.TrimSuffix(…, " ")` on a byte string. -/
def trimSuffixSpace (l : List Nat) : List Nat :=
  if l.getLast? = some 32 then l.dropLast else l

/-- The reserved JSON keys of `Message.skipKey`. -/
def keyReserved (k : List Nat) : Bool :=
  decide (k = [116, 105, 109, 101, 115, 116, 97, 109, 112] ∨
    k = [116, 121, 112, 101] ∨ k = [99, 111, 110, 116, 101, 110, 116])

/-- `Message.skipKey`: a reserved key, or one repeated later in the list. -/
def skipKeyL (k : List Nat) (rest : DataList) : Bool :=
  keyReserved k || rest.any (fun kv => decide (kv.1 = k))

/-- The pair loop of `WriteJSONTo` (message.go).  Note the faithful bug: the
boolean result of `appendDataValue` is IGNORED — `written` is set and the
appended `, "key": ` prefix is kept even when no value was written, unlike
the wire-format loop of `buffer.appendData`. -/
def jsonPairs (isPrint : Nat → Bool) (buf : List Nat) (written : Bool) :
    DataList → List Nat × Bool
  | [] => (buf, written)
  | (k, v) :: rest =>
    if skipKeyL k rest then jsonPairs isPrint buf written rest
    else
      jsonPairs isPrint
        ((appendDataValueB isPrint
          (buf ++ [44, 32] ++ appendQuoteString isPrint k ++ [58, 32]) v).1)
        true rest

/-- Faithful model of `Message.WriteJSONTo` (message.go); `ts` stands for the
RFC3339 timestamp bytes of `now()`, and `appendQuote` (`strconv.AppendQuote`)
is modelled by `appendQuoteString`, its adapted copy. -/
def writeJSONTo (isPrint : Nat → Bool) (ts : List Nat) (m : Message) : List Nat :=
  if m.data = [] then
    jsonHeadA ++ ts ++ jsonHeadB ++ trimSuffixSpace (typeBytes m.type) ++ jsonHeadC ++
      appendQuoteString isPrint m.content ++ [125, 10]
  else
    match jsonPairs isPrint
        (jsonHeadA ++ ts ++ jsonHeadB ++ trimSuffixSpace (typeBytes m.type) ++ jsonHeadC ++
          appendQuoteString isPrint m.content) false m.data with
    | (buf2, true) => buf2 ++ [125, 10]
    | (_, false) =>
      jsonHeadA ++ ts ++ jsonHeadB ++ trimSuffixSpace (typeBytes m.type) ++ jsonHeadC ++
        appendQuoteString isPrint m.content ++ [125, 10]

/-- ASCII-only stand-in for `strconv.IsPrint`, used to evaluate the models on
concrete inputs. -/
def asciiPrint (r : Nat) : Bool := decide (32 ≤ r ∧ r ≤ 126)

theorem appendDataPairs_hookNil (isPrint : Nat → Bool) (k : List Nat) (d2 : DataList) :
    ∀ (d1 : DataList) (buf : List Nat) (w : Bool),
      appendDataPairs isPrint buf w (d1 ++ (k, GoVal.hookNil) :: d2) =
        appendDataPairs isPrint buf w (d1 ++ d2) := by
  intro d1
  induction d1 with
  | nil =>
    intro buf w
    rw [List.nil_append, List.nil_append, appendDataPairs]
    rfl
  | cons p d1 ih =>
    intro buf w
    rcases p with ⟨pk, pv⟩
    rw [List.cons_append, List.cons_append, appendDataPairs, appendDataPairs]
    rcases h : appendDataValueB isPrint (buf ++ 32 :: (pk ++ [61])) pv with ⟨buf2, ok⟩
    cases ok
    · exact ih buf w
    · exact ih buf2 true

theorem appendDataB_hookNil (isPrint : Nat → Bool) (buf k : List Nat)
    (d1 d2 : DataList) :
    appendDataB isPrint buf (d1 ++ (k, GoVal.hookNil) :: d2) =
      appendDataB isPrint buf (d1 ++ d2) := by
  by_cases hd : d1 ++ d2 = []
  · rcases List.append_eq_nil.1 hd with ⟨h1, h2⟩
    subst h1
    subst h2
    rfl
  · rw [appendDataB, appendDataB, if_neg (by simp), if_neg hd,
      appendDataPairs_hookNil isPrint k d2 d1 (buf ++ [9, 124]) false]

/-- C4: a key-value pair whose Hook value yields nil at encode time.  In the
wire format the claim holds: `buffer.appendData` rolls the buffer back past
the pair, so the output is as if the pair were never there (first conjunct,
for every buffer, key and surrounding pairs).  The claim is FALSE for the
JSON format: `WriteJSONTo` ignores the boolean returned by `appendDataValue`,
so for an INFO "foo" message with the single pair ("a", Hook→nil) the JSON
line keeps the dangling key — `…, "content": "foo", "a": \x7d` — instead of
omitting the pair (second conjunct); the wire line for the same message drops
it entirely (third conjunct). -/
theorem hook_nil_wire_absent_but_json_key_present :
    (∀ (isPrint : Nat → Bool) (buf k : List Nat) (d1 d2 : DataList),
        appendDataB isPrint buf (d1 ++ (k, GoVal.hookNil) :: d2) =
          appendDataB isPrint buf (d1 ++ d2)) ∧
    writeJSONTo asciiPrint [] ⟨.info, [102, 111, 111], [([97], GoVal.hookNil)]⟩ =
      jsonHeadA ++ jsonHeadB ++ [73, 78, 70, 79] ++ jsonHeadC ++
        [34, 102, 111, 111, 34] ++ [44, 32, 34, 97, 34, 58, 32] ++ [125, 10] ∧
    printMessage asciiPrint ⟨.info, [102, 111, 111], [([97], GoVal.hookNil)]⟩ =
      [73, 78, 70, 79, 32, 32, 102, 111, 111, 10] := by
  refine ⟨fun isPrint buf k d1 d2 => appendDataB_hookNil isPrint buf k d1 d2, ?_, ?_⟩
  · have hfoo : appendQuoteString asciiPrint [102, 111, 111] = [34, 102, 111, 111, 34] := by
      simp [appendQuoteString, quoteBody, decodeRune, encodeRune, asciiPrint]
    have ha : appendQuoteString asciiPrint [97] = [34, 97, 34] := by
      simp [appendQuoteString, quoteBody, decodeRune, encodeRune, asciiPrint]
    simp [writeJSONTo, jsonPairs, skipKeyL, keyReserved, appendDataValueB,
      trimSuffixSpace, typeBytes, jsonHeadA, jsonHeadB, jsonHeadC, hfoo, ha]
  · decide

/-- C9 (amended): a record with empty content and empty data encodes to a
single line made of the type tag followed by one separator space and the
terminating newline — `printMessage` writes the space after the tag
unconditionally, so the line is not the bare tag the claim describes (and
the INFO/WARN tags themselves carry a padding space as their fifth byte). -/
theorem empty_message_line (isPrint : Nat → Bool) (t : MsgType) :
    printMessage isPrint ⟨t, [], []⟩ = typeBytes t ++ [32, 10] := by
  rw [printMessage]
  show appendDataB isPrint (typeBytes t ++ [32]) [] ++ [10] = typeBytes t ++ [32, 10]
  rw [appendDataB, if_pos rfl]
  simp

/-- C9 counterexample: the empty EVENT record encodes to `"EVENT \n"`
(a space before the newline), not to the bare tag `"EVENT\n"`. -/
theorem empty_message_line_not_bare_tag :
    printMessage asciiPrint ⟨.event, [], []⟩ = [69, 86, 69, 78, 84, 32, 10] ∧
      ¬printMessage asciiPrint ⟨.event, [], []⟩ = typeBytes .event ++ [10] := by
  constructor <;> decide

end Say
